import Mathlib

/-!
# ConnectionAndAuthExample

A verification development for
`vendor/blpapi_cpp_3.12.3.1-linux/examples/ConnectionAndAuthExample.cpp`.

Strings (`std::string`, and the NUL-terminated `char*` arguments of `argv`)
are lists of characters.  The `int` port is an `Int` kept in the 32-bit range,
`time_t` values are `Int`s.  The session, its event queues and the clock are
external collaborators: what they hand to the program is an input of the
model, what the program sends to them is recorded in the result.
-/

namespace ConnectionAndAuthExample

/-! ## Constants of the anonymous namespace (source lines 48-73) -/

def TOKEN_SUCCESS : List Char := "TokenGenerationSuccess".toList
def TOKEN_FAILURE : List Char := "TokenGenerationFailure".toList
def AUTHORIZATION_SUCCESS : List Char := "AuthorizationSuccess".toList
def TOKEN : List Char := "token".toList

def AUTH_USER : List Char := "AuthenticationType=OS_LOGON".toList
def AUTH_APP_PREFIX : List Char :=
  ("AuthenticationMode=APPLICATION_ONLY;" ++
   "ApplicationAuthenticationType=APPNAME_AND_KEY;" ++
   "ApplicationName=").toList
def AUTH_USER_APP_PREFIX : List Char :=
  ("AuthenticationMode=USER_AND_APPLICATION;" ++
   "AuthenticationType=OS_LOGON;" ++
   "ApplicationAuthenticationType=APPNAME_AND_KEY;" ++
   "ApplicationName=").toList
def AUTH_USER_APP_MANUAL_PREFIX : List Char :=
  ("AuthenticationMode=USER_AND_APPLICATION;" ++
   "AuthenticationType=MANUAL;" ++
   "ApplicationAuthenticationType=APPNAME_AND_KEY;" ++
   "ApplicationName=").toList
def AUTH_DIR_PREFIX : List Char :=
  ("AuthenticationType=DIRECTORY_SERVICE;" ++
   "DirSvcPropertyName=").toList

def AUTH_OPTION_NONE : List Char := "none".toList
def AUTH_OPTION_USER : List Char := "user".toList
def AUTH_OPTION_DIR : List Char := "dir=".toList
def AUTH_OPTION_MANUAL : List Char := "manual=".toList
def AUTH_OPTION_APP : List Char := "app=".toList
def AUTH_OPTION_USER_APP : List Char := "userapp=".toList

/-! ## String primitives used by the source -/

/-- Index of the first occurrence of `delim` in `s`, if any. -/
def findFrom (delim : Char) : List Char → Option Nat
  | [] => none
  | c :: cs => if c = delim then some 0 else (findFrom delim cs).map (· + 1)

/-- The call `str.find(delim, start)` of `std::string`: the index of the first
`delim` at or after `start`, `none` standing for `npos`. -/
def find (str : List Char) (delim : Char) (start : Nat) : Option Nat :=
  (findFrom delim (str.drop start)).map (· + start)

/-- The call `str.substr(start, len)` of `std::string`, for `start ≤ size`. -/
def substr (str : List Char) (start len : Nat) : List Char :=
  (str.drop start).take len

/-- The `while` loop of `splitBy` (source lines 79-82); it yields the final
`start` and the tokens pushed.  Every iteration moves `start` past one
delimiter, so `str.length + 1` iterations are always enough. -/
def splitByLoop (str : List Char) (delim : Char) :
    Nat → Nat → List (List Char) → Nat × List (List Char)
  | 0, start, tokens => (start, tokens)
  | fuel + 1, start, tokens =>
    match find str delim start with
    | some pos =>
      splitByLoop str delim fuel (pos + 1) (tokens ++ [substr str start (pos - start)])
    | none => (start, tokens)

/-- The function `splitBy` (source lines 75-87). -/
def splitBy (str : List Char) (delim : Char) : List (List Char) :=
  let r := splitByLoop str delim (str.length + 1) 0 []
  if r.1 ≠ str.length then r.2 ++ [str.drop r.1] else r.2

/-- The C library predicate `isspace` in the "C" locale. -/
def isspace (c : Char) : Bool :=
  c = ' ' || c = '\t' || c = '\n' || c = '\x0b' || c = '\x0c' || c = '\r'

/-- The value of a run of decimal digits, most significant digit first. -/
def digitsValue (ds : List Char) : Nat :=
  ds.foldl (fun acc c => 10 * acc + (c.toNat - '0'.toNat)) 0

/-- The C library function `strtol(s, NULL, 10)` with a 64-bit `long`: leading
white space is skipped, an optional sign is read, then the longest run of
decimal digits; a value out of the range of `long` is clamped. -/
def strtol (s : List Char) : Int :=
  let s1 := s.dropWhile isspace
  let neg := s1.head? = some '-'
  let s2 := if s1.head? = some '-' ∨ s1.head? = some '+' then s1.drop 1 else s1
  let v : Int := digitsValue (s2.takeWhile Char.isDigit)
  if neg then max (-v) (-(2 ^ 63)) else min v (2 ^ 63 - 1)

/-- Conversion of an integer to the 32-bit `int` (two's complement). -/
def toInt32 (x : Int) : Int := (x + 2 ^ 31) % 2 ^ 32 - 2 ^ 31

/-- The C library function `atoi`, which on this platform (glibc, Linux) is
`(int) strtol(s, NULL, 10)`. -/
def atoi (s : List Char) : Int := toInt32 (strtol s)

/-! ## The example class: data members and command line -/

/-- The nested struct `HostAndPort` (source lines 93-96). -/
structure HostAndPort where
  d_host : List Char
  d_port : Int
  deriving DecidableEq, Repr

end ConnectionAndAuthExample

/-- The data members of class `ConnectionAndAuthExample` (source lines 97-107). -/
structure ConnectionAndAuthExample where
  d_hosts : List ConnectionAndAuthExample.HostAndPort
  d_authOptions : List Char
  d_userId : List Char
  d_ipAddress : List Char
  d_manualToken : Bool
  d_clientCredentials : List Char
  d_clientCredentialsPassword : List Char
  d_trustMaterial : List Char
  d_readTlsData : Bool
  deriving DecidableEq, Repr

namespace ConnectionAndAuthExample

/-- The constructor (source lines 298-303): the authentication options start
as `AUTH_USER`, both flags are false, every other member is empty. -/
def new : ConnectionAndAuthExample :=
  { d_hosts := [], d_authOptions := AUTH_USER, d_userId := [], d_ipAddress := [],
    d_manualToken := false, d_clientCredentials := [],
    d_clientCredentialsPassword := [], d_trustMaterial := [], d_readTlsData := false }

/-- The `for` loop of `parseCommandLine` (source lines 141-219) over the
arguments not yet read, `argv[i], argv[i+1], ...`.  The Boolean is `false`
when the loop leaves through one of its `return false` statements; the object
is returned as it stands at that point. -/
def parseLoop : List (List Char) → ConnectionAndAuthExample → Bool × ConnectionAndAuthExample
  | [], s => (true, s)
  | arg :: rest, s =>
    if arg = "-host".toList then
      match rest with
      | [] => (false, s)
      | a :: rest' =>
        let tokens := splitBy a ':'
        let port : Int := if tokens.length = 2 then atoi (tokens.getD 1 []) else 8194
        let tokens := if tokens.length = 2 then tokens.dropLast else tokens
        if tokens.length ≠ 1 then (false, s)
        else parseLoop rest' { s with d_hosts := s.d_hosts ++ [⟨tokens.getD 0 [], port⟩] }
    else if arg = "-auth".toList ∧ rest ≠ [] then
      match rest with
      | [] => (false, s)
      | a :: rest' =>
        let s := { s with d_manualToken := false }
        if a = AUTH_OPTION_NONE then
          parseLoop rest' { s with d_authOptions := [] }
        else if a = AUTH_OPTION_USER then
          parseLoop rest' { s with d_authOptions := AUTH_USER }
        else if AUTH_OPTION_DIR.isPrefixOf a then
          parseLoop rest' { s with
            d_authOptions := AUTH_DIR_PREFIX ++ a.drop AUTH_OPTION_DIR.length }
        else if AUTH_OPTION_APP.isPrefixOf a then
          parseLoop rest' { s with
            d_authOptions := AUTH_APP_PREFIX ++ a.drop AUTH_OPTION_APP.length }
        else if AUTH_OPTION_USER_APP.isPrefixOf a then
          parseLoop rest' { s with
            d_authOptions := AUTH_USER_APP_PREFIX ++ a.drop AUTH_OPTION_USER_APP.length }
        else if AUTH_OPTION_MANUAL.isPrefixOf a then
          let tokens := splitBy (a.drop AUTH_OPTION_MANUAL.length) ','
          if tokens.length ≠ 3 then (false, s)
          else parseLoop rest' { s with
            d_authOptions := AUTH_USER_APP_MANUAL_PREFIX ++ tokens.getD 0 []
            d_manualToken := true
            d_ipAddress := tokens.getD 1 []
            d_userId := tokens.getD 2 [] }
        else (false, s)
    else if arg = "-tls-client-credentials".toList ∧ rest ≠ [] then
      match rest with
      | [] => (false, s)
      | a :: rest' => parseLoop rest' { s with d_clientCredentials := a }
    else if arg = "-tls-client-credentials-password".toList ∧ rest ≠ [] then
      match rest with
      | [] => (false, s)
      | a :: rest' => parseLoop rest' { s with d_clientCredentialsPassword := a }
    else if arg = "-tls-trust-material".toList ∧ rest ≠ [] then
      match rest with
      | [] => (false, s)
      | a :: rest' => parseLoop rest' { s with d_trustMaterial := a }
    else if arg = "-read-certificate-files".toList then
      parseLoop rest { s with d_readTlsData := true }
    else (false, s)

/-- The method `parseCommandLine` (source lines 139-227): `argv[0]` is
skipped, the loop reads the other arguments, and an empty host list receives
the default endpoint `localhost:8194`. -/
def parseCommandLine (argv : List (List Char)) (s : ConnectionAndAuthExample) :
    Bool × ConnectionAndAuthExample :=
  let r := parseLoop (argv.drop 1) s
  if r.1 = false then r
  else if r.2.d_hosts.length = 0 then
    (true, { r.2 with d_hosts := r.2.d_hosts ++ [⟨"localhost".toList, 8194⟩] })
  else (true, r.2)

/-! ## Session configuration built by `run` -/

/-- Modelled from the spec: the class `SessionOptions` of the blpapi headers is
not part of the sources; this record keeps the values that `run` passes to its
setters (source lines 310-325). -/
structure SessionOptions where
  serverAddresses : List (List Char × Int)
  authenticationOptions : List Char
  autoRestartOnDisconnection : Bool
  numStartAttempts : Int
  deriving DecidableEq, Repr

/-- The session options that `run` builds from the parsed object (source lines
310-325): one server address per host, the authentication options, automatic
restart, and the number of start attempts
`d_hosts.size() > 1 ? 1 : 1000`. -/
def sessionOptions (c : ConnectionAndAuthExample) : SessionOptions :=
  { serverAddresses := c.d_hosts.map (fun hp => (hp.d_host, hp.d_port))
    authenticationOptions := c.d_authOptions
    autoRestartOnDisconnection := true
    numStartAttempts := if c.d_hosts.length > 1 then 1 else 1000 }

/-! ## Events, messages and the method `authorize` -/

/-- Modelled from the spec: the enumeration `Event::EventType` of the blpapi
headers, which are not part of the sources. -/
inductive EventType where
  | ADMIN | SESSION_STATUS | SUBSCRIPTION_STATUS | REQUEST_STATUS | RESPONSE
  | PARTIAL_RESPONSE | SUBSCRIPTION_DATA | SERVICE_STATUS | TIMEOUT
  | AUTHORIZATION_STATUS | RESOLUTION_STATUS | TOPIC_STATUS | TOKEN_STATUS
  | REQUEST | UNKNOWN
  deriving DecidableEq, Repr

/-- Modelled from the spec: the class `Message` of the blpapi headers, which
are not part of the sources: a message type and named elements with their
values as strings. -/
structure Message where
  messageType : List Char
  elements : List (List Char × List Char)
  deriving DecidableEq, Repr

/-- Modelled from the spec: the call `msg.getElementAsString(name)`; `none`
stands for the exception the library throws when the message has no such
element. -/
def Message.getElementAsString (msg : Message) (name : List Char) : Option (List Char) :=
  msg.elements.lookup name

/-- Modelled from the spec: the class `Event` of the blpapi headers, which are
not part of the sources: a classification and the messages in arrival order,
as a `MessageIterator` yields them. -/
structure Event where
  eventType : EventType
  messages : List Message
  deriving DecidableEq, Repr

/-- What the session hands to `authorize`: the event that
`tokenEventQueue.nextEvent()` returns, the events that the successive calls
`session->nextEvent(...)` return, and the values that the successive calls
`time(0)` return (`clock 0` is `startTime`, `clock (k + 1)` is `endTime` of
iteration `k` of the polling loop). -/
structure Session where
  tokenEvent : Event
  events : Nat → Event
  clock : Nat → Int

/-- A request that `authorize` sends on the session. -/
inductive Sent where
  /-- The call `generateToken(CorrelationId(), &tokenEventQueue)`. -/
  | generateToken
  /-- The call `generateToken(userId, ipAddress, CorrelationId(), &tokenEventQueue)`. -/
  | generateTokenManual (userId ipAddress : List Char)
  /-- The call `sendAuthorizationRequest` with the request whose element `token` is set. -/
  | authorizationRequest (token : List Char)
  deriving DecidableEq, Repr

/-- The statement through which `authorize` leaves. -/
inductive Exit where
  /-- Source line 261, `return false` after "Failed to get token". -/
  | tokenFailed
  /-- Source line 282, `return true`. -/
  | authorized
  /-- Source line 286, `return false` after "Authorization failed". -/
  | rejected
  /-- Source line 292, `return false` when `endTime - startTime` exceeds the wait time. -/
  | deadline (endTime : Int)
  /-- An exception of the library leaves the function. -/
  | thrown
  deriving DecidableEq, Repr

/-- The value that `authorize` returns at each exit. -/
def Exit.value : Exit → Option Bool
  | Exit.tokenFailed => some false
  | Exit.authorized => some true
  | Exit.rejected => some false
  | Exit.deadline _ => some false
  | Exit.thrown => none

/-- The requests sent and the exit taken; `exit = none` when the polling loop
is still waiting after the iterations allowed. -/
structure Run where
  sent : List Sent
  exit : Option Exit
  deriving DecidableEq, Repr

def WAIT_TIME_SECONDS : Int := 10

/-- The token request of source lines 235-240. -/
def tokenRequest (c : ConnectionAndAuthExample) : Sent :=
  if !c.d_manualToken then Sent.generateToken
  else Sent.generateTokenManual c.d_userId c.d_ipAddress

/-- The message loop of source lines 248-257 over the messages not yet read;
`token` is the local variable, `none` an exception of `getElementAsString`. -/
def scanToken : List Message → List Char → Option (List Char)
  | [], token => some token
  | msg :: rest, token =>
    if msg.messageType = TOKEN_SUCCESS then
      match msg.getElementAsString TOKEN with
      | some v => scanToken rest v
      | none => none
    else if msg.messageType = TOKEN_FAILURE then some token
    else scanToken rest token

/-- Source lines 242-258: the value of `token` after the token event has been
read. -/
def extractToken (event : Event) : Option (List Char) :=
  if event.eventType = EventType.TOKEN_STATUS ∨ event.eventType = EventType.REQUEST_STATUS then
    scanToken event.messages []
  else some []

/-- The polling loop of source lines 271-294, from iteration `k` on, for at
most `fuel` iterations. -/
def pollLoop (events : Nat → Event) (clock : Nat → Int) (startTime : Int) :
    Nat → Nat → Option Exit
  | 0, _ => none
  | fuel + 1, k =>
    let event := events k
    let decided : Option Exit :=
      if event.eventType = EventType.RESPONSE ∨ event.eventType = EventType.REQUEST_STATUS ∨
          event.eventType = EventType.PARTIAL_RESPONSE then
        match event.messages with
        | msg :: _ =>
          if msg.messageType = AUTHORIZATION_SUCCESS then some Exit.authorized
          else some Exit.rejected
        | [] => none
      else none
    match decided with
    | some e => some e
    | none =>
      let endTime := clock (k + 1)
      if endTime - startTime > WAIT_TIME_SECONDS then some (Exit.deadline endTime)
      else pollLoop events clock startTime fuel (k + 1)

/-- The method `authorize` (source lines 229-295). -/
def authorize (c : ConnectionAndAuthExample) (env : Session) (fuel : Nat) : Run :=
  let sent := [tokenRequest c]
  match extractToken env.tokenEvent with
  | none => { sent := sent, exit := some Exit.thrown }
  | some token =>
    if token.length = 0 then { sent := sent, exit := some Exit.tokenFailed }
    else
      { sent := sent ++ [Sent.authorizationRequest token]
        exit := pollLoop env.events env.clock (env.clock 0) fuel 0 }

/-! ## The method `run` -/

/-- Modelled from the spec: the class `TlsOptions` of the blpapi headers, which
are not part of the sources: the arguments given to `createFromFiles` or to
`createFromBlobs`. -/
inductive TlsOptions where
  | createFromFiles (clientCredentials password trustMaterial : List Char)
  | createFromBlobs (clientCredentials password trustMaterial : List Char)
  deriving DecidableEq, Repr

/-- What the environment hands to `run`: the content of each file (`none` when
the stream fails), the results of `session.start()` and of
`session.openService("//blp/apiauth")`, and what the session hands to
`authorize`. -/
structure World where
  readFile : List Char → Option (List Char)
  start : Bool
  openService : Bool
  session : Session

/-- The statement through which `run` leaves. -/
inductive RunExit where
  /-- Source line 308, `parseCommandLine` returned false. -/
  | parseFailed
  /-- Source lines 348 and 368, "Failed to read file from". -/
  | readFailed (file : List Char)
  /-- Source line 403, "Failed to start session." -/
  | startFailed
  /-- Source line 417, "No authorization". -/
  | noAuthorization
  /-- Source line 420, the end of the function. -/
  | finished
  /-- An exception of the library leaves the function. -/
  | thrown
  deriving DecidableEq, Repr

/-- What `run` did: the session options and TLS options with which the session
was constructed (`none` when `run` leaves before source line 400), whether the
session started, the run of `authorize` when it was invoked, and the exit
taken (`none` when `authorize` is still waiting after the iterations
allowed). -/
structure RunResult where
  session : Option (SessionOptions × Option TlsOptions)
  started : Bool
  authorization : Option Run
  exit : Option RunExit
  deriving DecidableEq, Repr

/-- Source lines 327-390 of `run`: the TLS options passed to `setTlsOptions`
(`none` when the call is not made), or the file whose reading failed. -/
def tlsSetup (c : ConnectionAndAuthExample) (readFile : List Char → Option (List Char)) :
    Except (List Char) (Option TlsOptions) :=
  if c.d_clientCredentials.length ≠ 0 ∧ c.d_trustMaterial.length ≠ 0 then
    if c.d_readTlsData then
      match readFile c.d_clientCredentials with
      | none => Except.error c.d_clientCredentials
      | some clientCredentials =>
        match readFile c.d_trustMaterial with
        | none => Except.error c.d_trustMaterial
        | some trustMaterial =>
          Except.ok (some (TlsOptions.createFromBlobs clientCredentials
            c.d_clientCredentialsPassword trustMaterial))
    else
      Except.ok (some (TlsOptions.createFromFiles c.d_clientCredentials
        c.d_clientCredentialsPassword c.d_trustMaterial))
  else Except.ok none

/-- The method `run` (source lines 305-420) on a newly constructed object. -/
def run (argv : List (List Char)) (w : World) (fuel : Nat) : RunResult :=
  let r := parseCommandLine argv new
  if r.1 = false then
    { session := none, started := false, authorization := none, exit := some RunExit.parseFailed }
  else
    let c := r.2
    match tlsSetup c w.readFile with
    | Except.error file =>
      { session := none, started := false, authorization := none
        exit := some (RunExit.readFailed file) }
    | Except.ok tls =>
      let session := some (sessionOptions c, tls)
      if w.start = false then
        { session := session, started := false, authorization := none
          exit := some RunExit.startFailed }
      else if c.d_authOptions ≠ [] then
        if w.openService then
          let a := authorize c w.session fuel
          { session := session, started := true, authorization := some a
            exit := match a.exit with
              | none => none
              | some e => match e.value with
                | some true => some RunExit.finished
                | some false => some RunExit.noAuthorization
                | none => some RunExit.thrown }
        else
          { session := session, started := true, authorization := none
            exit := some RunExit.noAuthorization }
      else
        { session := session, started := true, authorization := none
          exit := some RunExit.finished }

/-! ## Auxiliary definitions used in the statements and proofs -/

/-- The fields of `rest` separated by `d`, read character by character; `cur`
is the field being read.  A last field that is empty is not kept. -/
def splitFields (d : Char) : List Char → List Char → List (List Char)
  | cur, [] => if cur = [] then [] else [cur]
  | cur, c :: cs => if c = d then cur :: splitFields d [] cs else splitFields d (cur ++ [c]) cs

/-- The number of `-host` options of an argument list: the arguments `-host`
that stand where an option is read, every option that takes a value being
followed by its value. -/
def hostOptions : List (List Char) → Nat
  | [] => 0
  | [arg] => if arg = "-host".toList then 1 else 0
  | arg :: a :: rest =>
    if arg = "-host".toList then 1 + hostOptions rest
    else if arg = "-auth".toList ∨ arg = "-tls-client-credentials".toList ∨
        arg = "-tls-client-credentials-password".toList ∨
        arg = "-tls-trust-material".toList then hostOptions rest
    else hostOptions (a :: rest)

/-- The event decides the polling loop: it is classified as response, request
status or partial response and carries at least one message. -/
def Event.decides (e : Event) : Bool :=
  decide ((e.eventType = EventType.RESPONSE ∨ e.eventType = EventType.REQUEST_STATUS ∨
    e.eventType = EventType.PARTIAL_RESPONSE) ∧ e.messages ≠ [])

/-- The messages that the token scan reads: those before the first
`TokenGenerationFailure` message. -/
def scannedMessages (msgs : List Message) : List Message :=
  msgs.takeWhile (fun m => m.messageType ≠ TOKEN_FAILURE)

/-- The last `TokenGenerationSuccess` message among those the token scan
reads. -/
def lastTokenSuccess (msgs : List Message) : Option Message :=
  ((scannedMessages msgs).filter (fun m => m.messageType = TOKEN_SUCCESS)).getLast?

/-- A `TokenGenerationSuccess` message whose element `token` is `v`. -/
def tokenSuccessMessage (v : List Char) : Message :=
  { messageType := TOKEN_SUCCESS, elements := [(TOKEN, v)] }

/-- A `TokenGenerationFailure` message. -/
def tokenFailureMessage : Message :=
  { messageType := TOKEN_FAILURE, elements := [] }

/-- A session whose token queue yields the token-status event with `msgs`,
whose authorization service answers at once with `AuthorizationSuccess`, and
whose clock stands still. -/
def answeringSession (msgs : List Message) : Session :=
  { tokenEvent := { eventType := EventType.TOKEN_STATUS, messages := msgs }
    events := fun _ => { eventType := EventType.RESPONSE,
                         messages := [{ messageType := AUTHORIZATION_SUCCESS, elements := [] }] }
    clock := fun _ => 0 }

/-- A session whose token queue yields the token `abc`, whose main event
source only times out, and whose clock advances by six seconds per call. -/
def silentSession : Session :=
  { tokenEvent := { eventType := EventType.TOKEN_STATUS,
                    messages := [tokenSuccessMessage "abc".toList] }
    events := fun _ => { eventType := EventType.TIMEOUT, messages := [] }
    clock := fun n => 6 * (n : Int) }

/-- The values of the `-auth` options of an argument list, in order: the
arguments that follow an `-auth` standing where an option is read. -/
def authValues : List (List Char) → List (List Char)
  | [] => []
  | [_] => []
  | arg :: a :: rest =>
    if arg = "-auth".toList then a :: authValues rest
    else if arg = "-host".toList ∨ arg = "-tls-client-credentials".toList ∨
        arg = "-tls-client-credentials-password".toList ∨
        arg = "-tls-trust-material".toList then authValues rest
    else authValues (a :: rest)

/-- The values of the `-host` options of an argument list, in order. -/
def hostValues : List (List Char) → List (List Char)
  | [] => []
  | [_] => []
  | arg :: a :: rest =>
    if arg = "-host".toList then a :: hostValues rest
    else if arg = "-auth".toList ∨ arg = "-tls-client-credentials".toList ∨
        arg = "-tls-client-credentials-password".toList ∨
        arg = "-tls-trust-material".toList then hostValues rest
    else hostValues (a :: rest)

/-- The argument list without its `-auth` options and their values, the last
one excepted. -/
def dropEarlierAuth : List (List Char) → List (List Char)
  | [] => []
  | [arg] => [arg]
  | arg :: a :: rest =>
    if arg = "-auth".toList then
      if authValues rest = [] then arg :: a :: dropEarlierAuth rest
      else dropEarlierAuth rest
    else if arg = "-host".toList ∨ arg = "-tls-client-credentials".toList ∨
        arg = "-tls-client-credentials-password".toList ∨
        arg = "-tls-trust-material".toList then arg :: a :: dropEarlierAuth rest
    else arg :: dropEarlierAuth (a :: rest)

/-- The request is a token-generation request. -/
def Sent.isTokenRequest : Sent → Bool
  | Sent.generateToken => true
  | Sent.generateTokenManual _ _ => true
  | Sent.authorizationRequest _ => false

/-- A host specification `h` or `h:p` with `h` not empty and without `:`, and
`p` a decimal numeral whose value lies between 1 and 65535. -/
def wellFormedHostSpec (a : List Char) : Prop :=
  (a ≠ [] ∧ ':' ∉ a) ∨
  ∃ h p : List Char, a = h ++ ':' :: p ∧ h ≠ [] ∧ ':' ∉ h ∧ p ≠ [] ∧
    (∀ c ∈ p, c.isDigit = true) ∧
    1 ≤ Nat.ofDigits 10 (p.reverse.map (fun c => c.toNat - 48)) ∧
    Nat.ofDigits 10 (p.reverse.map (fun c => c.toNat - 48)) ≤ 65535

/-- A world in which every file reads as empty, the session starts, the
authorization service opens, and the session is `s`. -/
def openWorld (s : Session) : World :=
  { readFile := fun _ => some [], start := true, openService := true, session := s }

/-! ## Lemmas on `splitBy` -/

theorem findFrom_of_not_mem (d : Char) (h : List Char) (hd : d ∉ h) : findFrom d h = none := by
  induction h with
  | nil => rfl
  | cons c cs ih =>
    simp only [List.mem_cons, not_or] at hd
    have hc : ¬ c = d := fun e => hd.1 e.symm
    simp [findFrom, hc, ih hd.2]

theorem findFrom_append_delim (d : Char) (h rest : List Char) (hd : d ∉ h) :
    findFrom d (h ++ d :: rest) = some h.length := by
  induction h with
  | nil => simp [findFrom]
  | cons c cs ih =>
    simp only [List.mem_cons, not_or] at hd
    have hc : ¬ c = d := fun e => hd.1 e.symm
    simp [findFrom, hc, ih hd.2]

theorem find_of_not_mem (d : Char) (pre h : List Char) (hd : d ∉ h) :
    find (pre ++ h) d pre.length = none := by
  simp [find, findFrom_of_not_mem d h hd]

theorem find_append_delim (d : Char) (pre h rest : List Char) (hd : d ∉ h) :
    find (pre ++ h ++ d :: rest) d pre.length = some (pre.length + h.length) := by
  simp [find, List.append_assoc, findFrom_append_delim d h rest hd, Nat.add_comm]

/-- The loop of `splitBy` followed by its final test computes `splitFields`;
`rest.length + 1` iterations are enough from any position. -/
theorem splitByLoop_eq_splitFields (d : Char) (rest : List Char) :
    ∀ (cur pre : List Char) (tokens : List (List Char)) (fuel : Nat),
      d ∉ cur → rest.length < fuel →
      (if (splitByLoop (pre ++ cur ++ rest) d fuel pre.length tokens).1 ≠ (pre ++ cur ++ rest).length
        then (splitByLoop (pre ++ cur ++ rest) d fuel pre.length tokens).2 ++
          [(pre ++ cur ++ rest).drop (splitByLoop (pre ++ cur ++ rest) d fuel pre.length tokens).1]
        else (splitByLoop (pre ++ cur ++ rest) d fuel pre.length tokens).2)
      = tokens ++ splitFields d cur rest := by
  induction rest with
  | nil =>
    intro cur pre tokens fuel hcur hfuel
    obtain ⟨f, rfl⟩ : ∃ f, fuel = f + 1 := ⟨fuel - 1, by omega⟩
    have hfind : find (pre ++ cur ++ []) d pre.length = none := by
      simpa using find_of_not_mem d pre cur hcur
    simp only [splitByLoop, hfind, splitFields]
    by_cases hc : cur = []
    · simp [hc]
    · simp [hc]
  | cons c cs ih =>
    intro cur pre tokens fuel hcur hfuel
    obtain ⟨f, rfl⟩ : ∃ f, fuel = f + 1 := ⟨fuel - 1, by omega⟩
    simp only [List.length_cons] at hfuel
    by_cases hc : c = d
    · subst hc
      have hfind := find_append_delim c pre cur cs hcur
      have hstr : pre ++ cur ++ c :: cs = (pre ++ cur ++ [c]) ++ [] ++ cs := by simp
      have hlen : pre.length + cur.length + 1 = (pre ++ cur ++ [c]).length := by
        simp [Nat.add_assoc]
      have hsub : substr (pre ++ cur ++ c :: cs) pre.length (pre.length + cur.length - pre.length) = cur := by
        simp [substr, List.append_assoc]
      have := ih [] (pre ++ cur ++ [c]) (tokens ++ [cur]) f (by simp) (by omega)
      simp only [splitByLoop, hfind, hsub, splitFields, if_true]
      rw [hlen, hstr]
      simpa using this
    · have hcur' : d ∉ cur ++ [c] := by
        simp only [List.mem_append, List.mem_singleton, not_or]
        exact ⟨hcur, fun e => hc e.symm⟩
      have := ih (cur ++ [c]) pre tokens (f + 1) hcur' (by omega)
      have hstr : pre ++ cur ++ c :: cs = pre ++ (cur ++ [c]) ++ cs := by simp
      rw [hstr]
      simpa [splitFields, hc] using this

theorem splitBy_eq_splitFields (str : List Char) (d : Char) :
    splitBy str d = splitFields d [] str := by
  have := splitByLoop_eq_splitFields d str [] [] [] (str.length + 1) (by simp) (by omega)
  simpa [splitBy] using this

theorem splitFields_of_not_mem (d : Char) (h : List Char) :
    ∀ cur : List Char, d ∉ h →
      splitFields d cur h = if cur ++ h = [] then [] else [cur ++ h] := by
  induction h with
  | nil => intro cur _; simp [splitFields]
  | cons c cs ih =>
    intro cur hd
    simp only [List.mem_cons, not_or] at hd
    have hc : ¬ c = d := fun e => hd.1 e.symm
    simp [splitFields, hc, ih (cur ++ [c]) hd.2]

theorem splitFields_append_delim (d : Char) (h rest : List Char) :
    ∀ cur : List Char, d ∉ h →
      splitFields d cur (h ++ d :: rest) = (cur ++ h) :: splitFields d [] rest := by
  induction h with
  | nil => intro cur _; simp [splitFields]
  | cons c cs ih =>
    intro cur hd
    simp only [List.mem_cons, not_or] at hd
    have hc : ¬ c = d := fun e => hd.1 e.symm
    simp [splitFields, hc, ih (cur ++ [c]) hd.2]

theorem count_le_length_splitFields (d : Char) (rest : List Char) :
    ∀ cur : List Char, rest.count d ≤ (splitFields d cur rest).length := by
  induction rest with
  | nil => intro cur; simp
  | cons c cs ih =>
    intro cur
    by_cases hc : c = d
    · subst hc
      have := ih []
      simp [splitFields]
      omega
    · have := ih (cur ++ [c])
      simpa [splitFields, hc, List.count_cons] using this

theorem length_splitFields_concat (d c : Char) (hc : c ≠ d) (rest : List Char) :
    ∀ cur : List Char, (splitFields d cur (rest ++ [c])).length = rest.count d + 1 := by
  induction rest with
  | nil => intro cur; simp [splitFields, hc]
  | cons x xs ih =>
    intro cur
    by_cases hx : x = d
    · subst hx
      simp [splitFields, ih []]
    · simp [splitFields, hx, ih (cur ++ [x]), List.count_cons]

theorem head_splitFields (d : Char) (rest : List Char) :
    ∀ cur : List Char, splitFields d cur rest ≠ [] →
      (splitFields d cur rest).getD 0 [] = cur ++ rest.takeWhile (fun c => c ≠ d) := by
  induction rest with
  | nil => intro cur h; by_cases hc : cur = [] <;> simp_all [splitFields]
  | cons c cs ih =>
    intro cur h
    by_cases hc : c = d
    · subst hc
      simp [splitFields, List.takeWhile]
    · have h' : splitFields d (cur ++ [c]) cs ≠ [] := by simpa [splitFields, hc] using h
      rw [show splitFields d cur (c :: cs) = splitFields d (cur ++ [c]) cs by
        simp [splitFields, hc], ih _ h']
      simp [List.takeWhile, hc]

theorem length_splitBy_of_two_le_count (a : List Char) (d : Char) (h2 : 2 ≤ a.count d)
    (hx : ¬ (a.count d = 2 ∧ a.getLast? = some d)) : 3 ≤ (splitBy a d).length := by
  rw [splitBy_eq_splitFields]
  by_cases h3 : 3 ≤ a.count d
  · exact le_trans h3 (count_le_length_splitFields d a [])
  · have hc2 : a.count d = 2 := by omega
    rcases List.eq_nil_or_concat a with rfl | ⟨init, c, rfl⟩
    · simp at h2
    · rw [List.concat_eq_append] at *
      have hcd : c ≠ d := by
        intro e
        apply hx
        refine ⟨hc2, ?_⟩
        simp [e]
      rw [length_splitFields_concat d c hcd init []]
      have : (init ++ [c]).count d = init.count d := by
        simp [List.count_append, List.count_singleton, hcd]
      omega

/-! ## Lemmas on `atoi` -/

theorem digitsValue_concat (ds : List Char) (c : Char) :
    digitsValue (ds ++ [c]) = 10 * digitsValue ds + (c.toNat - 48) := by
  simp [digitsValue, List.foldl_append]

theorem digitsValue_eq_ofDigits (ds : List Char) :
    digitsValue ds = Nat.ofDigits 10 (ds.reverse.map (fun c => c.toNat - 48)) := by
  induction ds using List.reverseRecOn with
  | nil => simp [digitsValue]
  | append_singleton l c ih =>
    rw [digitsValue_concat, ih]
    simp [Nat.ofDigits_cons]
    omega

theorem isDigit_not_special (c : Char) (h : c.isDigit = true) :
    isspace c = false ∧ c ≠ '-' ∧ c ≠ '+' ∧ c ≠ ':' := by
  refine ⟨?_, ?_, ?_, ?_⟩
  · by_contra hs
    simp only [isspace, Bool.not_eq_false, Bool.or_eq_true, decide_eq_true_eq] at hs
    rcases hs with ((((rfl | rfl) | rfl) | rfl) | rfl) | rfl <;> simp at h
  all_goals (rintro rfl; simp at h)

theorem atoi_of_digits (p : List Char) (hne : p ≠ []) (hd : ∀ c ∈ p, c.isDigit = true)
    (hv : digitsValue p ≤ 2147483647) : atoi p = (digitsValue p : Int) := by
  obtain ⟨c, cs, rfl⟩ := List.exists_cons_of_ne_nil hne
  have hc := isDigit_not_special c (hd c (by simp))
  have h1 : (c :: cs).dropWhile isspace = c :: cs := by
    simp [List.dropWhile, hc.1]
  have h2 : (c :: cs).takeWhile Char.isDigit = c :: cs := by
    rw [List.takeWhile_eq_self_iff]
    exact hd
  have hm : ¬ c = '-' := hc.2.1
  have hp : ¬ c = '+' := hc.2.2.1
  have hv' : (digitsValue (c :: cs) : Int) ≤ 2147483647 := by exact_mod_cast hv
  have h0 : (0 : Int) ≤ digitsValue (c :: cs) := Int.natCast_nonneg _
  simp only [atoi, strtol, h1, List.head?_cons, Option.some.injEq, hm, hp, or_self, if_false,
    h2, decide_False, Bool.false_eq_true]
  rw [min_eq_left (by omega)]
  simp only [toInt32]
  omega

/-! ## Lemmas on `parseLoop` -/

/-- An accepted `-auth` option leaves the host list as it is. -/
theorem parseLoop_auth_hosts (a : List Char) (rest : List (List Char))
    (s : ConnectionAndAuthExample)
    (h : (parseLoop ("-auth".toList :: a :: rest) s).1 = true) :
    ∃ s' : ConnectionAndAuthExample, s'.d_hosts = s.d_hosts ∧
      parseLoop ("-auth".toList :: a :: rest) s = parseLoop rest s' := by
  rw [parseLoop] at h ⊢
  simp +decide only [if_false, ne_eq, reduceCtorEq, not_false_eq_true, and_true, if_true] at h ⊢
  split_ifs at h ⊢
  all_goals (refine ⟨_, ?_, rfl⟩; rfl)

/-- An accepted `-host` option adds one endpoint to the host list. -/
theorem parseLoop_host_hosts (a : List Char) (rest : List (List Char))
    (s : ConnectionAndAuthExample)
    (h : (parseLoop ("-host".toList :: a :: rest) s).1 = true) :
    ∃ s' : ConnectionAndAuthExample, s'.d_hosts.length = s.d_hosts.length + 1 ∧
      parseLoop ("-host".toList :: a :: rest) s = parseLoop rest s' := by
  rw [parseLoop] at h ⊢
  simp only [if_true] at h ⊢
  split_ifs at h ⊢
  all_goals (refine ⟨_, ?_, rfl⟩; simp)

/-- An accepted argument list adds one endpoint per `-host` option. -/
theorem length_hosts_parseLoop (args : List (List Char)) :
    ∀ s : ConnectionAndAuthExample, (parseLoop args s).1 = true →
      (parseLoop args s).2.d_hosts.length = s.d_hosts.length + hostOptions args := by
  induction args using hostOptions.induct with
  | case1 => intro s _; simp [parseLoop, hostOptions]
  | case2 => intro s h; simp [parseLoop] at h
  | case3 arg harg =>
    intro s h
    rw [parseLoop] at h ⊢
    simp only [harg, if_false, ne_eq, not_true_eq_false, and_false] at h ⊢
    split_ifs at h ⊢ with h2
    simp only [parseLoop, hostOptions, harg, if_false, Nat.add_zero]
  | case4 a rest ih =>
    intro s h
    obtain ⟨s', hs', e⟩ := parseLoop_host_hosts a rest s h
    rw [e] at h ⊢
    rw [ih s' h, hs']
    simp [hostOptions]
    omega
  | case5 arg a rest h1 h2 ih =>
    intro s h
    simp only [hostOptions, h1, h2, if_true, if_false]
    rcases h2 with rfl | rfl | rfl | rfl
    · obtain ⟨s', hs', e⟩ := parseLoop_auth_hosts a rest s h
      rw [e] at h ⊢
      rw [ih s' h, hs']
    all_goals
      rw [parseLoop] at h ⊢
      simp +decide only [if_false, ne_eq, reduceCtorEq, not_false_eq_true, and_true, if_true] at h ⊢
      simpa using ih _ h
  | case6 arg a rest h1 h2 ih =>
    intro s h
    rw [parseLoop] at h ⊢
    simp only [not_or] at h2
    simp only [h1, h2.1, h2.2.1, h2.2.2.1, h2.2.2.2, if_false, false_and] at h ⊢
    simp only [hostOptions, h1, h2.1, h2.2.1, h2.2.2.1, h2.2.2.2, if_false, or_self]
    split_ifs at h ⊢ with h3
    simpa using ih _ h

theorem parseCommandLine_of_loop_false (argv : List (List Char))
    (s : ConnectionAndAuthExample) (h : (parseLoop (argv.drop 1) s).1 = false) :
    parseCommandLine argv s = parseLoop (argv.drop 1) s := by
  unfold parseCommandLine
  simp only [h, if_true]

theorem parseCommandLine_of_loop_true (argv : List (List Char))
    (s : ConnectionAndAuthExample) (h : (parseLoop (argv.drop 1) s).1 = true) :
    parseCommandLine argv s =
      (true, if (parseLoop (argv.drop 1) s).2.d_hosts.length = 0 then
        { (parseLoop (argv.drop 1) s).2 with
          d_hosts := (parseLoop (argv.drop 1) s).2.d_hosts ++ [⟨"localhost".toList, 8194⟩] }
        else (parseLoop (argv.drop 1) s).2) := by
  unfold parseCommandLine
  simp only [h, Bool.true_eq_false, if_false]
  split_ifs <;> rfl

/-! ## Lemmas on `authorize` -/

theorem pollLoop_succ_of_message (events : Nat → Event) (clock : Nat → Int) (startTime : Int)
    (fuel k : Nat) (m : Message) (ms : List Message)
    (hty : (events k).eventType = EventType.RESPONSE ∨
      (events k).eventType = EventType.PARTIAL_RESPONSE ∨
      (events k).eventType = EventType.REQUEST_STATUS)
    (hm : (events k).messages = m :: ms) :
    pollLoop events clock startTime (fuel + 1) k
      = some (if m.messageType = AUTHORIZATION_SUCCESS then Exit.authorized else Exit.rejected) := by
  have hty' : (events k).eventType = EventType.RESPONSE ∨
      (events k).eventType = EventType.REQUEST_STATUS ∨
      (events k).eventType = EventType.PARTIAL_RESPONSE := by tauto
  rw [pollLoop]
  simp only [hty', if_true, hm]
  split_ifs <;> rfl

theorem pollLoop_succ_of_not_decides (events : Nat → Event) (clock : Nat → Int)
    (startTime : Int) (fuel k : Nat) (h : (events k).decides = false) :
    pollLoop events clock startTime (fuel + 1) k
      = if clock (k + 1) - startTime > WAIT_TIME_SECONDS
        then some (Exit.deadline (clock (k + 1)))
        else pollLoop events clock startTime fuel (k + 1) := by
  rw [pollLoop]
  simp only [Event.decides, decide_eq_false_iff_not, not_and_or, not_not] at h
  rcases h with h | h
  · simp only [if_neg h]
  · simp only [h]
    split_ifs <;> rfl

/-- The loop reaches iteration `k + n` from iteration `k` when the `n`
iterations in between neither decide nor pass the deadline. -/
theorem pollLoop_skip (events : Nat → Event) (clock : Nat → Int) (startTime : Int)
    (fuel : Nat) : ∀ n k : Nat,
      (∀ j, k ≤ j → j < k + n →
        (events j).decides = false ∧ clock (j + 1) - startTime ≤ WAIT_TIME_SECONDS) →
      pollLoop events clock startTime (n + fuel) k
        = pollLoop events clock startTime fuel (k + n) := by
  intro n
  induction n with
  | zero => intro k _; simp
  | succ n ih =>
    intro k h
    have hk := h k (le_refl k) (by omega)
    rw [show n + 1 + fuel = (n + fuel) + 1 by omega,
      pollLoop_succ_of_not_decides events clock startTime (n + fuel) k hk.1,
      if_neg (by omega), ih (k + 1) (fun j h1 h2 => h j (by omega) (by omega))]
    congr 1
    omega

theorem pollLoop_deadline (events : Nat → Event) (clock : Nat → Int) (startTime : Int) :
    ∀ (fuel k : Nat) (e : Int),
      pollLoop events clock startTime fuel k = some (Exit.deadline e) →
      e - startTime > WAIT_TIME_SECONDS := by
  intro fuel
  induction fuel with
  | zero => intro k e h; simp [pollLoop] at h
  | succ fuel ih =>
    intro k e h
    by_cases hd : (events k).decides = false
    · rw [pollLoop_succ_of_not_decides events clock startTime fuel k hd] at h
      split_ifs at h with hc
      · simp only [Option.some.injEq, Exit.deadline.injEq] at h
        rw [← h]
        exact hc
      · exact ih (k + 1) e h
    · simp only [Event.decides, decide_eq_false_iff_not, not_not] at hd
      obtain ⟨m, ms, hm⟩ := List.exists_cons_of_ne_nil hd.2
      rw [pollLoop_succ_of_message events clock startTime fuel k m ms (by tauto) hm] at h
      split_ifs at h <;> simp at h

theorem authorize_of_token (c : ConnectionAndAuthExample) (env : Session) (fuel : Nat)
    (token : List Char) (htok : extractToken env.tokenEvent = some token) (hne : token ≠ []) :
    authorize c env fuel =
      { sent := [tokenRequest c, Sent.authorizationRequest token]
        exit := pollLoop env.events env.clock (env.clock 0) fuel 0 } := by
  have hlen : ¬ token.length = 0 := fun h => hne (List.length_eq_zero.mp h)
  simp [authorize, htok, hlen]

theorem authorize_of_no_token (c : ConnectionAndAuthExample) (env : Session) (fuel : Nat)
    (htok : extractToken env.tokenEvent = some []) :
    authorize c env fuel = { sent := [tokenRequest c], exit := some Exit.tokenFailed } := by
  simp [authorize, htok]

theorem scanToken_failure (f : Message) (post : List Message)
    (hf : f.messageType = TOKEN_FAILURE) :
    ∀ pre : List Message,
      (∀ m ∈ pre, m.messageType = TOKEN_SUCCESS → m.getElementAsString TOKEN = some []) →
      scanToken (pre ++ f :: post) [] = some [] := by
  have hne : ¬ TOKEN_FAILURE = TOKEN_SUCCESS := by decide
  intro pre
  induction pre with
  | nil => intro _; simp [scanToken, hf, hne]
  | cons m pre ih =>
    intro h
    have ih' := ih (fun x hx => h x (List.mem_cons_of_mem m hx))
    rw [List.cons_append, scanToken]
    by_cases hs : m.messageType = TOKEN_SUCCESS
    · simp only [hs, if_true, h m (List.mem_cons_self m pre) hs]
      exact ih'
    · simp only [hs, if_false]
      split_ifs
      · rfl
      · exact ih'

theorem scanToken_eq_lastTokenSuccess :
    ∀ (msgs : List Message) (tok : List Char),
      (∀ x ∈ scannedMessages msgs, x.messageType = TOKEN_SUCCESS →
        (x.getElementAsString TOKEN).isSome = true) →
      scanToken msgs tok = some (match lastTokenSuccess msgs with
        | some m => (m.getElementAsString TOKEN).getD []
        | none => tok) := by
  have hne : ¬ TOKEN_SUCCESS = TOKEN_FAILURE := by decide
  intro msgs
  induction msgs with
  | nil => intro tok _; simp [scanToken, lastTokenSuccess, scannedMessages]
  | cons x xs ih =>
    intro tok hall
    by_cases hs : x.messageType = TOKEN_SUCCESS
    · have hxf : ¬ x.messageType = TOKEN_FAILURE := by rw [hs]; exact hne
      have hsc : scannedMessages (x :: xs) = x :: scannedMessages xs := by
        simp [scannedMessages, List.takeWhile, hxf]
      obtain ⟨v, hv⟩ := Option.isSome_iff_exists.mp (hall x (by rw [hsc]; simp) hs)
      have hall' : ∀ y ∈ scannedMessages xs, y.messageType = TOKEN_SUCCESS →
          (y.getElementAsString TOKEN).isSome = true :=
        fun y hy => hall y (by rw [hsc]; exact List.mem_cons_of_mem x hy)
      rw [scanToken]
      simp only [hs, if_true, hv]
      rw [ih v hall']
      have hlast : lastTokenSuccess (x :: xs)
          = some ((lastTokenSuccess xs).getD x) := by
        simp [lastTokenSuccess, hsc, List.filter, hs, List.getLast?_cons]
      rw [hlast]
      cases hl : lastTokenSuccess xs with
      | none => simp [hv]
      | some m => simp
    · by_cases hf : x.messageType = TOKEN_FAILURE
      · have hsc : scannedMessages (x :: xs) = [] := by
          simp [scannedMessages, List.takeWhile, hf]
        have hne' : ¬ TOKEN_FAILURE = TOKEN_SUCCESS := fun e => hne e.symm
        rw [scanToken]
        simp only [hf, hne', if_false, if_true, lastTokenSuccess, hsc, List.filter_nil,
          List.getLast?_nil]
      · have hsc : scannedMessages (x :: xs) = x :: scannedMessages xs := by
          simp [scannedMessages, List.takeWhile, hf]
        have hall' : ∀ y ∈ scannedMessages xs, y.messageType = TOKEN_SUCCESS →
            (y.getElementAsString TOKEN).isSome = true :=
          fun y hy => hall y (by rw [hsc]; exact List.mem_cons_of_mem x hy)
        have hlast : lastTokenSuccess (x :: xs) = lastTokenSuccess xs := by
          simp [lastTokenSuccess, hsc, List.filter, hs]
        rw [scanToken]
        simp only [hs, hf, if_false]
        rw [ih tok hall', hlast]

theorem length_splitFields_le (d : Char) (rest : List Char) :
    ∀ cur : List Char, (splitFields d cur rest).length ≤ rest.count d + 1 := by
  induction rest with
  | nil => intro cur; simp only [splitFields]; split_ifs <;> simp
  | cons c cs ih =>
    intro cur
    by_cases hc : c = d
    · subst hc
      have := ih []
      simp [splitFields]
      omega
    · have := ih (cur ++ [c])
      simpa [splitFields, hc, List.count_cons] using this

theorem splitBy_three_fields (A IP USER : List Char) (hA : ',' ∉ A) (hIP : ',' ∉ IP)
    (hU : ',' ∉ USER) (hne : USER ≠ []) :
    splitBy (A ++ ',' :: (IP ++ ',' :: USER)) ',' = [A, IP, USER] := by
  rw [splitBy_eq_splitFields, splitFields_append_delim ',' A _ [] hA,
    splitFields_append_delim ',' IP _ [] hIP, splitFields_of_not_mem ',' USER [] hU]
  simp [hne]

theorem length_splitBy_ne_three (t : List Char) (d : Char) (h2 : t.count d ≠ 2)
    (hx : ¬ (t.count d = 3 ∧ t.getLast? = some d)) : (splitBy t d).length ≠ 3 := by
  rw [splitBy_eq_splitFields]
  have hle := length_splitFields_le d t []
  have hge := count_le_length_splitFields d t []
  by_cases h3 : t.count d = 3
  · rcases List.eq_nil_or_concat t with rfl | ⟨init, c, rfl⟩
    · simp at h3
    · rw [List.concat_eq_append] at *
      have hcd : c ≠ d := by
        intro e
        apply hx
        refine ⟨h3, ?_⟩
        simp [e]
      rw [length_splitFields_concat d c hcd init []]
      have : (init ++ [c]).count d = init.count d := by
        simp [List.count_append, List.count_singleton, hcd]
      omega
  · omega

theorem splitFields_ne_nil_of_chain (d : Char) (rest : List Char) :
    ∀ cur : List Char, (cur ≠ [] ∨ rest.head? ≠ some d) →
      rest.Chain' (fun a b => ¬ (a = d ∧ b = d)) →
      ∀ x ∈ splitFields d cur rest, x ≠ [] := by
  induction rest with
  | nil =>
    intro cur _ _ x hx
    simp only [splitFields] at hx
    split_ifs at hx with hc
    · simp at hx
    · simp only [List.mem_singleton] at hx
      rw [hx]; exact hc
  | cons c cs ih =>
    intro cur hcur hch x hx
    by_cases hc : c = d
    · subst hc
      have hcur' : cur ≠ [] := by
        rcases hcur with h | h
        · exact h
        · simp at h
      simp only [splitFields, if_true, List.mem_cons] at hx
      rcases hx with rfl | hx
      · exact hcur'
      · refine ih [] (Or.inr ?_) hch.tail x hx
        cases cs with
        | nil => simp
        | cons y ys =>
          have := (List.chain'_cons.mp hch).1
          simp only [List.head?_cons, ne_eq, Option.some.injEq]
          intro e
          exact this ⟨rfl, e⟩
    · simp only [splitFields, hc, if_false] at hx
      exact ih (cur ++ [c]) (Or.inl (by simp)) hch.tail x hx

theorem tail_splitFields_ne_nil_of_chain (d : Char) (rest : List Char) :
    ∀ cur : List Char, rest.Chain' (fun a b => ¬ (a = d ∧ b = d)) →
      ∀ x ∈ (splitFields d cur rest).tail, x ≠ [] := by
  induction rest with
  | nil =>
    intro cur _ x hx
    simp only [splitFields] at hx
    split_ifs at hx <;> simp at hx
  | cons c cs ih =>
    intro cur hch x hx
    by_cases hc : c = d
    · subst hc
      simp only [splitFields, if_true, List.tail_cons] at hx
      refine splitFields_ne_nil_of_chain c cs [] (Or.inr ?_) hch.tail x hx
      cases cs with
      | nil => simp
      | cons y ys =>
        have := (List.chain'_cons.mp hch).1
        simp only [List.head?_cons, ne_eq, Option.some.injEq]
        intro e
        exact this ⟨rfl, e⟩
    · simp only [splitFields, hc, if_false] at hx
      exact ih (cur ++ [c]) hch.tail x hx

/-- An `-auth` option acts on the authentication members as it does on a new
object, and leaves the other members as they are. -/
theorem parseLoop_auth_frame (a : List Char) (rest : List (List Char))
    (s : ConnectionAndAuthExample) :
    parseLoop ("-auth".toList :: a :: rest) s =
      if (parseLoop ["-auth".toList, a] new).1 = true then
        parseLoop rest { s with
          d_authOptions := (parseLoop ["-auth".toList, a] new).2.d_authOptions
          d_manualToken := (parseLoop ["-auth".toList, a] new).2.d_manualToken
          d_ipAddress :=
            if (parseLoop ["-auth".toList, a] new).2.d_manualToken = true
            then (parseLoop ["-auth".toList, a] new).2.d_ipAddress else s.d_ipAddress
          d_userId :=
            if (parseLoop ["-auth".toList, a] new).2.d_manualToken = true
            then (parseLoop ["-auth".toList, a] new).2.d_userId else s.d_userId }
      else (false, { s with d_manualToken := false }) := by
  simp only [parseLoop]
  simp +decide only [if_false, ne_eq, reduceCtorEq, not_false_eq_true, and_true, if_true]
  by_cases h1 : a = AUTH_OPTION_NONE
  · simp only [h1, if_true, Bool.false_eq_true, if_false]
  simp only [h1, if_false, Bool.false_eq_true]
  by_cases h2 : a = AUTH_OPTION_USER
  · simp only [h2, if_true, Bool.false_eq_true, if_false]
  simp only [h2, if_false, Bool.false_eq_true]
  by_cases h3 : AUTH_OPTION_DIR.isPrefixOf a = true
  · simp only [h3, if_true, Bool.false_eq_true, if_false]
  simp only [h3, if_false, Bool.false_eq_true]
  by_cases h4 : AUTH_OPTION_APP.isPrefixOf a = true
  · simp only [h4, if_true, Bool.false_eq_true, if_false]
  simp only [h4, if_false, Bool.false_eq_true]
  by_cases h5 : AUTH_OPTION_USER_APP.isPrefixOf a = true
  · simp only [h5, if_true, Bool.false_eq_true, if_false]
  simp only [h5, if_false, Bool.false_eq_true]
  by_cases h6 : AUTH_OPTION_MANUAL.isPrefixOf a = true
  · simp only [h6, if_true]
    by_cases h7 : (splitBy (List.drop AUTH_OPTION_MANUAL.length a) ',').length = 3
    · simp only [h7, not_true_eq_false, if_false, if_true]
    · simp only [h7, not_false_eq_true, if_true, Bool.false_eq_true, if_false]
  · simp only [h6, Bool.false_eq_true, if_false]

/-- A `-host` option adds to the host list what it adds to the empty list of a
new object, and leaves the other members as they are. -/
theorem parseLoop_host_frame (a : List Char) (rest : List (List Char))
    (s : ConnectionAndAuthExample) :
    parseLoop ("-host".toList :: a :: rest) s =
      if (parseLoop ["-host".toList, a] new).1 = true then
        parseLoop rest { s with
          d_hosts := s.d_hosts ++ (parseLoop ["-host".toList, a] new).2.d_hosts }
      else (false, s) := by
  simp only [parseLoop]
  simp only [if_true]
  by_cases h1 : (if (splitBy a ':').length = 2 then (splitBy a ':').dropLast
      else splitBy a ':').length = 1
  · simp only [h1, ne_eq, not_true_eq_false, if_false, if_true, new, List.nil_append]
  · simp only [h1, ne_eq, not_false_eq_true, if_true, Bool.false_eq_true, if_false]

theorem parseLoop_credentials (a : List Char) (rest : List (List Char))
    (s : ConnectionAndAuthExample) :
    parseLoop ("-tls-client-credentials".toList :: a :: rest) s
      = parseLoop rest { s with d_clientCredentials := a } := by
  rw [parseLoop]
  simp +decide only [if_false, ne_eq, reduceCtorEq, not_false_eq_true, and_true, if_true,
    and_false]

theorem parseLoop_password (a : List Char) (rest : List (List Char))
    (s : ConnectionAndAuthExample) :
    parseLoop ("-tls-client-credentials-password".toList :: a :: rest) s
      = parseLoop rest { s with d_clientCredentialsPassword := a } := by
  rw [parseLoop]
  simp +decide only [if_false, ne_eq, reduceCtorEq, not_false_eq_true, and_true, if_true,
    and_false]

theorem parseLoop_trust (a : List Char) (rest : List (List Char))
    (s : ConnectionAndAuthExample) :
    parseLoop ("-tls-trust-material".toList :: a :: rest) s
      = parseLoop rest { s with d_trustMaterial := a } := by
  rw [parseLoop]
  simp +decide only [if_false, ne_eq, reduceCtorEq, not_false_eq_true, and_true, if_true,
    and_false]

/-- An argument that is no option with a value is accepted only as
`-read-certificate-files`. -/
theorem parseLoop_other (arg : List Char) (rest : List (List Char))
    (s : ConnectionAndAuthExample)
    (h1 : ¬ arg = "-host".toList) (h2 : ¬ arg = "-auth".toList)
    (h3 : ¬ arg = "-tls-client-credentials".toList)
    (h4 : ¬ arg = "-tls-client-credentials-password".toList)
    (h5 : ¬ arg = "-tls-trust-material".toList) :
    parseLoop (arg :: rest) s =
      if arg = "-read-certificate-files".toList
      then parseLoop rest { s with d_readTlsData := true } else (false, s) := by
  cases rest with
  | nil =>
    simp only [parseLoop, h1, h2, h3, h4, h5, if_false, false_and]
  | cons a rest =>
    rw [parseLoop]
    simp only [h1, h2, h3, h4, h5, if_false, false_and]

/-- An option alone at the end of the arguments is accepted only as
`-read-certificate-files`. -/
theorem parseLoop_singleton (arg : List Char) (s : ConnectionAndAuthExample) :
    parseLoop [arg] s =
      if arg = "-read-certificate-files".toList
      then (true, { s with d_readTlsData := true }) else (false, s) := by
  rw [parseLoop]
  simp only [ne_eq, not_true_eq_false, and_false, if_false, parseLoop]
  split_ifs with h1 h2
  · subst h1; exact absurd h2 (by decide)
  · rfl
  · rfl
  · rfl

/-- Whether an argument list is accepted does not depend on the object. -/
theorem parseLoop_accept_indep (args : List (List Char)) :
    ∀ s s' : ConnectionAndAuthExample, (parseLoop args s).1 = (parseLoop args s').1 := by
  induction args using authValues.induct with
  | case1 => intro s s'; simp [parseLoop]
  | case2 arg =>
    intro s s'
    rw [parseLoop_singleton, parseLoop_singleton]
    split_ifs <;> rfl
  | case3 a rest ih =>
    intro s s'
    rw [parseLoop_auth_frame a rest s, parseLoop_auth_frame a rest s']
    by_cases h : (parseLoop ["-auth".toList, a] new).1 = true
    · rw [if_pos h, if_pos h]; exact ih _ _
    · rw [if_neg h, if_neg h]
  | case4 arg a rest h1 h2 ih =>
    intro s s'
    rcases h2 with rfl | rfl | rfl | rfl
    · rw [parseLoop_host_frame a rest s, parseLoop_host_frame a rest s']
      by_cases h : (parseLoop ["-host".toList, a] new).1 = true
      · rw [if_pos h, if_pos h]; exact ih _ _
      · rw [if_neg h, if_neg h]
    · rw [parseLoop_credentials, parseLoop_credentials]; exact ih _ _
    · rw [parseLoop_password, parseLoop_password]; exact ih _ _
    · rw [parseLoop_trust, parseLoop_trust]; exact ih _ _
  | case5 arg a rest h1 h2 ih =>
    intro s s'
    simp only [not_or] at h2
    rw [parseLoop_other arg _ s h2.1 h1 h2.2.1 h2.2.2.1 h2.2.2.2,
      parseLoop_other arg _ s' h2.1 h1 h2.2.1 h2.2.2.1 h2.2.2.2]
    split_ifs
    · exact ih _ _
    · rfl

/-- The authentication members after an accepted argument list: those of the
object when the list has no `-auth` option, otherwise those that the last
`-auth` option sets on a new object. -/
theorem auth_members_parseLoop (args : List (List Char)) :
    ∀ s : ConnectionAndAuthExample, (parseLoop args s).1 = true →
      (authValues args = [] →
        (parseLoop args s).2.d_authOptions = s.d_authOptions ∧
        (parseLoop args s).2.d_manualToken = s.d_manualToken ∧
        (parseLoop args s).2.d_ipAddress = s.d_ipAddress ∧
        (parseLoop args s).2.d_userId = s.d_userId) ∧
      (∀ a, (authValues args).getLast? = some a →
        (parseLoop ["-auth".toList, a] new).1 = true ∧
        (parseLoop args s).2.d_authOptions
          = (parseLoop ["-auth".toList, a] new).2.d_authOptions ∧
        (parseLoop args s).2.d_manualToken
          = (parseLoop ["-auth".toList, a] new).2.d_manualToken ∧
        ((parseLoop ["-auth".toList, a] new).2.d_manualToken = true →
          (parseLoop args s).2.d_ipAddress = (parseLoop ["-auth".toList, a] new).2.d_ipAddress ∧
          (parseLoop args s).2.d_userId = (parseLoop ["-auth".toList, a] new).2.d_userId)) := by
  induction args using authValues.induct with
  | case1 =>
    intro s _
    simp [parseLoop, authValues]
  | case2 arg =>
    intro s h
    rw [parseLoop_singleton] at h ⊢
    split_ifs at h ⊢ with hf
    simp [authValues]
  | case3 a rest ih =>
    intro s h
    rw [parseLoop_auth_frame a rest s] at h ⊢
    by_cases hP : (parseLoop ["-auth".toList, a] new).1 = true
    · rw [if_pos hP] at h ⊢
      have IH := ih _ h
      refine ⟨fun e => by simp [authValues] at e, fun b hb => ?_⟩
      by_cases hr : authValues rest = []
      · have hba : b = a := by
          simp only [authValues, if_true, hr, List.getLast?_singleton, Option.some.injEq] at hb
          exact hb.symm
        subst hba
        obtain ⟨e1, e2, e3, e4⟩ := IH.1 hr
        refine ⟨hP, e1, e2, fun hm => ?_⟩
        rw [e3, e4]
        simp only [hm, if_true]
        exact ⟨trivial, trivial⟩
      · have hb' : (authValues rest).getLast? = some b := by
          simp only [authValues, if_true] at hb
          rw [List.getLast?_cons] at hb
          cases hl : (authValues rest).getLast? with
          | none => exact absurd (List.getLast?_eq_none_iff.mp hl) hr
          | some x => rw [hl] at hb; simpa using hb
        exact IH.2 b hb'
    · rw [if_neg hP] at h
      exact absurd h (by simp)
  | case4 arg a rest h1 h2 ih =>
    intro s h
    have hav : authValues (arg :: a :: rest) = authValues rest := by
      simp only [authValues, h1, h2, if_false, if_true]
    rw [hav]
    rcases h2 with rfl | rfl | rfl | rfl
    · rw [parseLoop_host_frame a rest s] at h ⊢
      by_cases hP : (parseLoop ["-host".toList, a] new).1 = true
      · rw [if_pos hP] at h ⊢
        exact ih _ h
      · rw [if_neg hP] at h
        exact absurd h (by simp)
    · rw [parseLoop_credentials] at h ⊢; exact ih _ h
    · rw [parseLoop_password] at h ⊢; exact ih _ h
    · rw [parseLoop_trust] at h ⊢; exact ih _ h
  | case5 arg a rest h1 h2 ih =>
    intro s h
    have hav : authValues (arg :: a :: rest) = authValues (a :: rest) := by
      simp only [authValues, h1, h2, if_false]
    rw [hav]
    simp only [not_or] at h2
    rw [parseLoop_other arg _ s h2.1 h1 h2.2.1 h2.2.2.1 h2.2.2.2] at h ⊢
    by_cases hf : arg = "-read-certificate-files".toList
    · rw [if_pos hf] at h ⊢
      exact ih _ h
    · rw [if_neg hf] at h
      exact absurd h (by simp)

/-- An accepted `-auth` option sets the manual-token flag exactly when its
value starts with `manual=`; the members it then sets are the three fields of
the text after `manual=`. -/
theorem auth_alone_manual (a : List Char)
    (hacc : (parseLoop ["-auth".toList, a] new).1 = true) :
    ((parseLoop ["-auth".toList, a] new).2.d_manualToken = true ↔
      AUTH_OPTION_MANUAL.isPrefixOf a = true) ∧
    (AUTH_OPTION_MANUAL.isPrefixOf a = true →
      (splitBy (a.drop AUTH_OPTION_MANUAL.length) ',').length = 3 ∧
      (parseLoop ["-auth".toList, a] new).2.d_authOptions
        = AUTH_USER_APP_MANUAL_PREFIX ++ (splitBy (a.drop AUTH_OPTION_MANUAL.length) ',').getD 0 [] ∧
      (parseLoop ["-auth".toList, a] new).2.d_ipAddress
        = (splitBy (a.drop AUTH_OPTION_MANUAL.length) ',').getD 1 [] ∧
      (parseLoop ["-auth".toList, a] new).2.d_userId
        = (splitBy (a.drop AUTH_OPTION_MANUAL.length) ',').getD 2 []) := by
  simp only [parseLoop] at hacc ⊢
  simp +decide only [if_false, ne_eq, reduceCtorEq, not_false_eq_true, and_true, if_true]
    at hacc ⊢
  by_cases h1 : a = AUTH_OPTION_NONE
  · have hm : ¬ AUTH_OPTION_MANUAL.isPrefixOf a = true := by subst h1; decide
    simp only [h1, if_true, Bool.false_eq_true, false_iff] at hacc ⊢
    rw [← h1]
    exact ⟨hm, fun h => absurd h hm⟩
  simp only [h1, if_false] at hacc ⊢
  by_cases h2 : a = AUTH_OPTION_USER
  · have hm : ¬ AUTH_OPTION_MANUAL.isPrefixOf a = true := by subst h2; decide
    simp only [h2, if_true, Bool.false_eq_true, false_iff] at hacc ⊢
    rw [← h2]
    exact ⟨hm, fun h => absurd h hm⟩
  simp only [h2, if_false] at hacc ⊢
  by_cases h3 : AUTH_OPTION_DIR.isPrefixOf a = true
  · have hm : ¬ AUTH_OPTION_MANUAL.isPrefixOf a = true := by
      obtain ⟨t, rfl⟩ := List.isPrefixOf_iff_prefix.mp h3
      simp +decide [AUTH_OPTION_MANUAL, AUTH_OPTION_DIR]
    simp only [h3, if_true, Bool.false_eq_true, false_iff] at hacc ⊢
    exact ⟨hm, fun h => absurd h hm⟩
  simp only [h3, if_false, Bool.false_eq_true] at hacc ⊢
  by_cases h4 : AUTH_OPTION_APP.isPrefixOf a = true
  · have hm : ¬ AUTH_OPTION_MANUAL.isPrefixOf a = true := by
      obtain ⟨t, rfl⟩ := List.isPrefixOf_iff_prefix.mp h4
      simp +decide [AUTH_OPTION_MANUAL, AUTH_OPTION_APP]
    simp only [h4, if_true, Bool.false_eq_true, false_iff] at hacc ⊢
    exact ⟨hm, fun h => absurd h hm⟩
  simp only [h4, if_false, Bool.false_eq_true] at hacc ⊢
  by_cases h5 : AUTH_OPTION_USER_APP.isPrefixOf a = true
  · have hm : ¬ AUTH_OPTION_MANUAL.isPrefixOf a = true := by
      obtain ⟨t, rfl⟩ := List.isPrefixOf_iff_prefix.mp h5
      simp +decide [AUTH_OPTION_MANUAL, AUTH_OPTION_USER_APP]
    simp only [h5, if_true, Bool.false_eq_true, false_iff] at hacc ⊢
    exact ⟨hm, fun h => absurd h hm⟩
  simp only [h5, if_false, Bool.false_eq_true] at hacc ⊢
  by_cases h6 : AUTH_OPTION_MANUAL.isPrefixOf a = true
  · simp only [h6, if_true] at hacc ⊢
    by_cases h7 : (splitBy (List.drop AUTH_OPTION_MANUAL.length a) ',').length = 3
    · simp only [h7, not_true_eq_false, if_false, if_true, new]
      simp
    · simp only [h7, not_false_eq_true, if_true, Bool.false_eq_true] at hacc
  · simp only [h6, Bool.false_eq_true, if_false] at hacc

/-- The option `-auth none` alone is accepted and empties the authentication
options. -/
theorem auth_alone_none :
    (parseLoop ["-auth".toList, "none".toList] new).1 = true ∧
    (parseLoop ["-auth".toList, "none".toList] new).2.d_authOptions = [] := by
  decide

theorem authValues_cons_other (arg : List Char) (rest : List (List Char))
    (h1 : ¬ arg = "-auth".toList)
    (h2 : ¬ (arg = "-host".toList ∨ arg = "-tls-client-credentials".toList ∨
      arg = "-tls-client-credentials-password".toList ∨ arg = "-tls-trust-material".toList)) :
    authValues (arg :: rest) = authValues rest := by
  cases rest with
  | nil => simp [authValues]
  | cons a rest => simp only [authValues, h1, h2, if_false]

/-- After the earlier `-auth` options are removed, the last one is the only
`-auth` option left. -/
theorem authValues_dropEarlierAuth (args : List (List Char)) :
    authValues (dropEarlierAuth args) = (authValues args).getLast?.toList := by
  induction args using dropEarlierAuth.induct with
  | case1 => simp [dropEarlierAuth, authValues]
  | case2 arg => simp [dropEarlierAuth, authValues]
  | case3 a rest hr ih =>
    simp only [dropEarlierAuth, if_true, hr, authValues, ih]
    simp
  | case4 a rest hr ih =>
    simp only [dropEarlierAuth, if_true, hr, if_false, authValues, ih]
    rw [List.getLast?_cons]
    cases hl : (authValues rest).getLast? with
    | none => exact absurd (List.getLast?_eq_none_iff.mp hl) hr
    | some x => simp
  | case5 arg a rest h1 h2 ih =>
    simp only [dropEarlierAuth, h1, h2, if_false, if_true, authValues, ih]
  | case6 arg a rest h1 h2 ih =>
    have e : dropEarlierAuth (arg :: a :: rest) = arg :: dropEarlierAuth (a :: rest) := by
      simp only [dropEarlierAuth, h1, h2, if_false]
    rw [e, authValues_cons_other arg _ h1 h2, ih, authValues_cons_other arg _ h1 h2]

/-- An accepted argument list is still accepted after its earlier `-auth`
options are removed. -/
theorem parseLoop_dropEarlierAuth (args : List (List Char)) :
    ∀ s : ConnectionAndAuthExample, (parseLoop args s).1 = true →
      (parseLoop (dropEarlierAuth args) s).1 = true := by
  induction args using dropEarlierAuth.induct with
  | case1 => intro s h; simpa [dropEarlierAuth] using h
  | case2 arg => intro s h; simpa [dropEarlierAuth] using h
  | case3 a rest hr ih =>
    intro s h
    have e : dropEarlierAuth ("-auth".toList :: a :: rest)
        = "-auth".toList :: a :: dropEarlierAuth rest := by
      simp only [dropEarlierAuth, if_true, hr]
    rw [e]
    rw [parseLoop_auth_frame] at h ⊢
    by_cases hP : (parseLoop ["-auth".toList, a] new).1 = true
    · rw [if_pos hP] at h ⊢
      exact ih _ h
    · rw [if_neg hP] at h
      exact absurd h (by simp)
  | case4 a rest hr ih =>
    intro s h
    have e : dropEarlierAuth ("-auth".toList :: a :: rest) = dropEarlierAuth rest := by
      simp only [dropEarlierAuth, if_true, hr, if_false]
    rw [e]
    rw [parseLoop_auth_frame] at h
    by_cases hP : (parseLoop ["-auth".toList, a] new).1 = true
    · rw [if_pos hP] at h
      rw [parseLoop_accept_indep _ s _]
      exact ih _ h
    · rw [if_neg hP] at h
      exact absurd h (by simp)
  | case5 arg a rest h1 h2 ih =>
    intro s h
    have e : dropEarlierAuth (arg :: a :: rest) = arg :: a :: dropEarlierAuth rest := by
      simp only [dropEarlierAuth, h1, h2, if_false, if_true]
    rw [e]
    rcases h2 with rfl | rfl | rfl | rfl
    · rw [parseLoop_host_frame] at h ⊢
      by_cases hP : (parseLoop ["-host".toList, a] new).1 = true
      · rw [if_pos hP] at h ⊢
        exact ih _ h
      · rw [if_neg hP] at h
        exact absurd h (by simp)
    · rw [parseLoop_credentials] at h ⊢; exact ih _ h
    · rw [parseLoop_password] at h ⊢; exact ih _ h
    · rw [parseLoop_trust] at h ⊢; exact ih _ h
  | case6 arg a rest h1 h2 ih =>
    intro s h
    have e : dropEarlierAuth (arg :: a :: rest) = arg :: dropEarlierAuth (a :: rest) := by
      simp only [dropEarlierAuth, h1, h2, if_false]
    rw [e]
    have h2' := h2
    simp only [not_or] at h2'
    rw [parseLoop_other arg _ s h2'.1 h1 h2'.2.1 h2'.2.2.1 h2'.2.2.2] at h ⊢
    by_cases hf : arg = "-read-certificate-files".toList
    · rw [if_pos hf] at h ⊢
      exact ih _ h
    · rw [if_neg hf] at h
      exact absurd h (by simp)

theorem parseLoop_host_plain (h : List Char) (rest : List (List Char))
    (s : ConnectionAndAuthExample) (hne : h ≠ []) (hc : ':' ∉ h) :
    parseLoop ("-host".toList :: h :: rest) s
      = parseLoop rest { s with d_hosts := s.d_hosts ++ [⟨h, 8194⟩] } := by
  have hsplit : splitBy h ':' = [h] := by
    rw [splitBy_eq_splitFields, splitFields_of_not_mem ':' h [] hc]
    simp [hne]
  rw [parseLoop]
  simp [hsplit]

theorem parseLoop_host_port (h p : List Char) (rest : List (List Char))
    (s : ConnectionAndAuthExample) (hc : ':' ∉ h) (hne : p ≠ [])
    (hd : ∀ c ∈ p, c.isDigit = true)
    (hv : Nat.ofDigits 10 (p.reverse.map (fun c => c.toNat - 48)) ≤ 2147483647) :
    parseLoop ("-host".toList :: (h ++ ':' :: p) :: rest) s
      = parseLoop rest { s with
          d_hosts := s.d_hosts ++
            [⟨h, (Nat.ofDigits 10 (p.reverse.map (fun c => c.toNat - 48)) : Nat)⟩] } := by
  have hp : ':' ∉ p := fun hm => (isDigit_not_special ':' (hd ':' hm)).2.2.2 rfl
  have hsplit : splitBy (h ++ ':' :: p) ':' = [h, p] := by
    rw [splitBy_eq_splitFields, splitFields_append_delim ':' h p [] hc,
      splitFields_of_not_mem ':' p [] hp]
    simp [hne]
  rw [← digitsValue_eq_ofDigits] at hv ⊢
  have hatoi := atoi_of_digits p hne hd hv
  rw [parseLoop]
  simp [hsplit, hatoi]

/-- With well-formed `-host` options, an accepted argument list keeps every
endpoint with a host that is not empty and a port between 1 and 65535. -/
theorem hosts_parseLoop (args : List (List Char)) :
    ∀ s : ConnectionAndAuthExample, (parseLoop args s).1 = true →
      (∀ a ∈ hostValues args, wellFormedHostSpec a) →
      (∀ hp ∈ s.d_hosts, hp.d_host ≠ [] ∧ 1 ≤ hp.d_port ∧ hp.d_port ≤ 65535) →
      ∀ hp ∈ (parseLoop args s).2.d_hosts,
        hp.d_host ≠ [] ∧ 1 ≤ hp.d_port ∧ hp.d_port ≤ 65535 := by
  induction args using hostValues.induct with
  | case1 => intro s _ _ hs; simpa [parseLoop] using hs
  | case2 arg =>
    intro s h _ hs
    rw [parseLoop_singleton] at h ⊢
    split_ifs at h ⊢ with hf
    exact hs
  | case3 a rest ih =>
    intro s h hwf hs
    have hwf' : ∀ b ∈ hostValues rest, wellFormedHostSpec b := fun b hb =>
      hwf b (by simp only [hostValues, if_true]; exact List.mem_cons_of_mem a hb)
    have ha : wellFormedHostSpec a := hwf a (by simp [hostValues])
    rcases ha with ⟨hne, hc⟩ | ⟨h', p, rfl, hne, hc, hpne, hd, h1, h2⟩
    · rw [parseLoop_host_plain a rest s hne hc] at h ⊢
      refine ih _ h hwf' ?_
      intro hp hmem
      simp only [List.mem_append, List.mem_singleton] at hmem
      rcases hmem with hmem | rfl
      · exact hs hp hmem
      · exact ⟨hne, by norm_num, by norm_num⟩
    · rw [parseLoop_host_port h' p rest s hc hpne hd (by omega)] at h ⊢
      refine ih _ h hwf' ?_
      intro hp hmem
      simp only [List.mem_append, List.mem_singleton] at hmem
      rcases hmem with hmem | rfl
      · exact hs hp hmem
      · refine ⟨hne, ?_, ?_⟩
        · show (1 : Int) ≤ ((Nat.ofDigits 10 (p.reverse.map (fun c => c.toNat - 48)) : Nat) : Int)
          exact_mod_cast h1
        · show ((Nat.ofDigits 10 (p.reverse.map (fun c => c.toNat - 48)) : Nat) : Int) ≤ 65535
          exact_mod_cast h2
  | case4 arg a rest h1 h2 ih =>
    intro s h hwf hs
    have hav : hostValues (arg :: a :: rest) = hostValues rest := by
      simp only [hostValues, h1, h2, if_false, if_true]
    rw [hav] at hwf
    rcases h2 with rfl | rfl | rfl | rfl
    · rw [parseLoop_auth_frame a rest s] at h ⊢
      by_cases hP : (parseLoop ["-auth".toList, a] new).1 = true
      · rw [if_pos hP] at h ⊢
        exact ih _ h hwf hs
      · rw [if_neg hP] at h
        exact absurd h (by simp)
    · rw [parseLoop_credentials] at h ⊢; exact ih _ h hwf hs
    · rw [parseLoop_password] at h ⊢; exact ih _ h hwf hs
    · rw [parseLoop_trust] at h ⊢; exact ih _ h hwf hs
  | case5 arg a rest h1 h2 ih =>
    intro s h hwf hs
    have hav : hostValues (arg :: a :: rest) = hostValues (a :: rest) := by
      simp only [hostValues, h1, h2, if_false]
    rw [hav] at hwf
    simp only [not_or] at h2
    rw [parseLoop_other arg _ s h1 h2.1 h2.2.1 h2.2.2.1 h2.2.2.2] at h ⊢
    by_cases hf : arg = "-read-certificate-files".toList
    · rw [if_pos hf] at h ⊢
      exact ih _ h hwf hs
    · rw [if_neg hf] at h
      exact absurd h (by simp)

/-- An accepted command line leaves every member but the host list as the
loop produced it. -/
theorem parseCommandLine_members (argv : List (List Char)) (s : ConnectionAndAuthExample)
    (hacc : (parseCommandLine argv s).1 = true) :
    (parseLoop (argv.drop 1) s).1 = true ∧
    (parseCommandLine argv s).2.d_authOptions = (parseLoop (argv.drop 1) s).2.d_authOptions ∧
    (parseCommandLine argv s).2.d_manualToken = (parseLoop (argv.drop 1) s).2.d_manualToken ∧
    (parseCommandLine argv s).2.d_ipAddress = (parseLoop (argv.drop 1) s).2.d_ipAddress ∧
    (parseCommandLine argv s).2.d_userId = (parseLoop (argv.drop 1) s).2.d_userId := by
  have hloop : (parseLoop (argv.drop 1) s).1 = true := by
    by_contra hf
    simp only [Bool.not_eq_true] at hf
    rw [parseCommandLine_of_loop_false _ _ hf, hf] at hacc
    exact Bool.false_ne_true hacc
  rw [parseCommandLine_of_loop_true _ _ hloop]
  refine ⟨hloop, ?_, ?_, ?_, ?_⟩ <;> (split_ifs <;> rfl)

theorem parseLoop_manual (t : List Char) (rest : List (List Char))
    (s : ConnectionAndAuthExample) :
    parseLoop ("-auth".toList :: ("manual=".toList ++ t) :: rest) s =
      if (splitBy t ',').length = 3 then
        parseLoop rest { s with
          d_manualToken := true
          d_authOptions := AUTH_USER_APP_MANUAL_PREFIX ++ (splitBy t ',').getD 0 []
          d_ipAddress := (splitBy t ',').getD 1 []
          d_userId := (splitBy t ',').getD 2 [] }
      else (false, { s with d_manualToken := false }) := by
  have hdrop : List.drop AUTH_OPTION_MANUAL.length ("manual=".toList ++ t) = t := by
    simp +decide [AUTH_OPTION_MANUAL]
  have e1 : ¬ ("manual=".toList ++ t = AUTH_OPTION_NONE) := by
    simp +decide [AUTH_OPTION_NONE]
  have e2 : ¬ ("manual=".toList ++ t = AUTH_OPTION_USER) := by
    simp +decide [AUTH_OPTION_USER]
  have e3 : ¬ (AUTH_OPTION_DIR.isPrefixOf ("manual=".toList ++ t) = true) := by
    simp +decide [AUTH_OPTION_DIR]
  have e4 : ¬ (AUTH_OPTION_APP.isPrefixOf ("manual=".toList ++ t) = true) := by
    simp +decide [AUTH_OPTION_APP]
  have e5 : ¬ (AUTH_OPTION_USER_APP.isPrefixOf ("manual=".toList ++ t) = true) := by
    simp +decide [AUTH_OPTION_USER_APP]
  have e6 : AUTH_OPTION_MANUAL.isPrefixOf ("manual=".toList ++ t) = true := by
    simp +decide [AUTH_OPTION_MANUAL]
  rw [parseLoop]
  simp +decide only [if_false, ne_eq, reduceCtorEq, not_false_eq_true, and_true, if_true]
  simp only [e1, e2, e3, e4, e5, e6, if_false, if_true, hdrop, Bool.false_eq_true]
  by_cases h : (splitBy t ',').length = 3
  · simp only [h, not_true_eq_false, if_false, if_true]
  · simp only [h, not_false_eq_true, if_true, if_false]

theorem tlsSetup_of_empty (c : ConnectionAndAuthExample)
    (readFile : List Char → Option (List Char))
    (h : c.d_clientCredentials = [] ∨ c.d_trustMaterial = []) :
    tlsSetup c readFile = Except.ok none := by
  unfold tlsSetup
  rcases h with h | h <;> simp [h]

theorem tlsSetup_of_files (c : ConnectionAndAuthExample)
    (readFile : List Char → Option (List Char))
    (h1 : c.d_clientCredentials ≠ []) (h2 : c.d_trustMaterial ≠ [])
    (h3 : c.d_readTlsData = false) :
    tlsSetup c readFile = Except.ok (some (TlsOptions.createFromFiles c.d_clientCredentials
      c.d_clientCredentialsPassword c.d_trustMaterial)) := by
  unfold tlsSetup
  simp [h1, h2, h3]

theorem tlsSetup_some (c : ConnectionAndAuthExample)
    (readFile : List Char → Option (List Char)) (t : TlsOptions)
    (h : tlsSetup c readFile = Except.ok (some t)) :
    c.d_clientCredentials ≠ [] ∧ c.d_trustMaterial ≠ [] := by
  by_contra hn
  have hor : c.d_clientCredentials = [] ∨ c.d_trustMaterial = [] := by
    by_cases h1 : c.d_clientCredentials = []
    · exact Or.inl h1
    · by_cases h2 : c.d_trustMaterial = []
      · exact Or.inr h2
      · exact absurd ⟨h1, h2⟩ hn
  rw [tlsSetup_of_empty c readFile hor] at h
  simp at h

/-- The method `run` after an accepted command line and a TLS set-up that does
not fail. -/
theorem run_of_tls (argv : List (List Char)) (w : World) (fuel : Nat)
    (tls : Option TlsOptions)
    (hacc : (parseCommandLine argv new).1 = true)
    (htls : tlsSetup (parseCommandLine argv new).2 w.readFile = Except.ok tls) :
    (run argv w fuel).session = some (sessionOptions (parseCommandLine argv new).2, tls) ∧
    (run argv w fuel).started = w.start ∧
    ((parseCommandLine argv new).2.d_authOptions = [] →
      (run argv w fuel).authorization = none ∧
      (run argv w fuel).exit
        = some (if w.start = false then RunExit.startFailed else RunExit.finished)) := by
  unfold run
  simp only [hacc, Bool.true_eq_false, if_false, htls]
  cases hs : w.start with
  | false => simp
  | true =>
    by_cases ha : (parseCommandLine argv new).2.d_authOptions = []
    · simp [ha]
    · cases ho : w.openService <;> simp [ha]

/-- The method `run` invokes `authorize` only with authentication options that
are not empty. -/
theorem run_authorization (argv : List (List Char)) (w : World) (fuel : Nat)
    (h : (run argv w fuel).authorization ≠ none) :
    (parseCommandLine argv new).1 = true ∧
    (parseCommandLine argv new).2.d_authOptions ≠ [] ∧
    (run argv w fuel).authorization = some (authorize (parseCommandLine argv new).2 w.session fuel) := by
  unfold run at h ⊢
  by_cases hacc : (parseCommandLine argv new).1 = true
  · simp only [hacc, Bool.true_eq_false, if_false] at h ⊢
    cases htls : tlsSetup (parseCommandLine argv new).2 w.readFile with
    | error f => simp [htls] at h
    | ok tls =>
      simp only [htls] at h ⊢
      cases hs : w.start with
      | false => simp [hs] at h
      | true =>
        by_cases ha : (parseCommandLine argv new).2.d_authOptions = []
        · simp [hs, ha] at h
        · cases ho : w.openService with
          | false => simp [hs, ha, ho] at h
          | true => simp [ha]
  · simp only [Bool.not_eq_true] at hacc
    simp [hacc] at h

theorem authorize_sent (c : ConnectionAndAuthExample) (env : Session) (fuel : Nat) :
    (authorize c env fuel).sent.filter Sent.isTokenRequest = [tokenRequest c] ∧
    (authorize c env fuel).sent.head? = some (tokenRequest c) := by
  have ht : (tokenRequest c).isTokenRequest = true := by
    unfold tokenRequest
    split_ifs <;> rfl
  unfold authorize
  cases extractToken env.tokenEvent with
  | none => simp [ht]
  | some token =>
    by_cases hl : token.length = 0
    · simp [hl, ht]
    · have hf : (Sent.authorizationRequest token).isTokenRequest = false := rfl
      simp only [hl, if_false, List.singleton_append, List.filter_cons, ht, if_true, hf,
        Bool.false_eq_true, List.filter_nil, List.head?_cons, and_self]

/-! ## Command line: authentication options -/

/-- C1: every accepted form of the `-auth` option sets the authentication
options to the serialized form of the table, whatever the object held before
and whatever arguments follow: `none` gives the empty string, `user` gives
`AuthenticationType=OS_LOGON`, `dir=P`, `app=A` and `userapp=A` give their
prefix followed by `P` or `A`, and an accepted `manual=t` (one that `splitBy`
cuts into three fields) gives the manual prefix followed by the first field
only, the text of `t` before its first comma; the two other fields go to
`d_ipAddress` and `d_userId`. -/
theorem auth_option_string_serialized (rest : List (List Char)) (s : ConnectionAndAuthExample)
    (P A t : List Char) (ht : (splitBy t ',').length = 3) :
    parseLoop ("-auth".toList :: "none".toList :: rest) s
      = parseLoop rest { s with d_manualToken := false, d_authOptions := [] } ∧
    parseLoop ("-auth".toList :: "user".toList :: rest) s
      = parseLoop rest { s with
          d_manualToken := false, d_authOptions := "AuthenticationType=OS_LOGON".toList } ∧
    parseLoop ("-auth".toList :: ("dir=".toList ++ P) :: rest) s
      = parseLoop rest { s with
          d_manualToken := false
          d_authOptions :=
            "AuthenticationType=DIRECTORY_SERVICE;DirSvcPropertyName=".toList ++ P } ∧
    parseLoop ("-auth".toList :: ("app=".toList ++ A) :: rest) s
      = parseLoop rest { s with
          d_manualToken := false
          d_authOptions :=
            "AuthenticationMode=APPLICATION_ONLY;ApplicationAuthenticationType=APPNAME_AND_KEY;ApplicationName=".toList
              ++ A } ∧
    parseLoop ("-auth".toList :: ("userapp=".toList ++ A) :: rest) s
      = parseLoop rest { s with
          d_manualToken := false
          d_authOptions :=
            "AuthenticationMode=USER_AND_APPLICATION;AuthenticationType=OS_LOGON;ApplicationAuthenticationType=APPNAME_AND_KEY;ApplicationName=".toList
              ++ A } ∧
    parseLoop ("-auth".toList :: ("manual=".toList ++ t) :: rest) s
      = parseLoop rest { s with
          d_manualToken := true
          d_authOptions :=
            "AuthenticationMode=USER_AND_APPLICATION;AuthenticationType=MANUAL;ApplicationAuthenticationType=APPNAME_AND_KEY;ApplicationName=".toList
              ++ t.takeWhile (fun c => c ≠ ',')
          d_ipAddress := (splitBy t ',').getD 1 []
          d_userId := (splitBy t ',').getD 2 [] } := by
  refine ⟨?_, ?_, ?_, ?_, ?_, ?_⟩
  · rw [parseLoop]
    simp +decide [AUTH_OPTION_NONE]
  · rw [parseLoop]
    simp +decide [AUTH_OPTION_NONE, AUTH_OPTION_USER, AUTH_USER]
  · rw [parseLoop]
    simp +decide [AUTH_OPTION_NONE, AUTH_OPTION_USER, AUTH_OPTION_DIR, AUTH_DIR_PREFIX]
  · rw [parseLoop]
    simp +decide [AUTH_OPTION_NONE, AUTH_OPTION_USER, AUTH_OPTION_DIR, AUTH_OPTION_APP,
      AUTH_APP_PREFIX]
  · rw [parseLoop]
    simp +decide [AUTH_OPTION_NONE, AUTH_OPTION_USER, AUTH_OPTION_DIR, AUTH_OPTION_APP,
      AUTH_OPTION_USER_APP, AUTH_USER_APP_PREFIX]
  · have hne : splitFields ',' [] t ≠ [] := by
      intro e
      rw [splitBy_eq_splitFields, e] at ht
      simp at ht
    have hhead := head_splitFields ',' t [] hne
    rw [← splitBy_eq_splitFields] at hhead
    have hdrop : List.drop AUTH_OPTION_MANUAL.length ("manual=".toList ++ t) = t := by
      simp +decide [AUTH_OPTION_MANUAL]
    rw [parseLoop]
    simp +decide only [if_false, ne_eq, reduceCtorEq, not_false_eq_true, and_true, if_true]
    have e1 : ¬ ("manual=".toList ++ t = AUTH_OPTION_NONE) := by
      simp +decide [AUTH_OPTION_NONE]
    have e2 : ¬ ("manual=".toList ++ t = AUTH_OPTION_USER) := by
      simp +decide [AUTH_OPTION_USER]
    have e3 : ¬ (AUTH_OPTION_DIR.isPrefixOf ("manual=".toList ++ t) = true) := by
      simp +decide [AUTH_OPTION_DIR]
    have e4 : ¬ (AUTH_OPTION_APP.isPrefixOf ("manual=".toList ++ t) = true) := by
      simp +decide [AUTH_OPTION_APP]
    have e5 : ¬ (AUTH_OPTION_USER_APP.isPrefixOf ("manual=".toList ++ t) = true) := by
      simp +decide [AUTH_OPTION_USER_APP]
    have e6 : AUTH_OPTION_MANUAL.isPrefixOf ("manual=".toList ++ t) = true := by
      simp +decide [AUTH_OPTION_MANUAL]
    simp only [e1, e2, e3, e4, e5, e6, if_false, if_true, hdrop, ht, not_true_eq_false, hhead]
    simp [AUTH_USER_APP_MANUAL_PREFIX]

/-- A concrete run: the option `manual=app,10.0.0.1,jo`
is accepted and keeps `app` only in the option string. -/
theorem auth_option_string_serialized_witness :
    (splitBy "app,10.0.0.1,jo".toList ',').length = 3 ∧
    (parseLoop ["-auth".toList, "manual=".toList ++ "app,10.0.0.1,jo".toList] new).2.d_authOptions
      = "AuthenticationMode=USER_AND_APPLICATION;AuthenticationType=MANUAL;ApplicationAuthenticationType=APPNAME_AND_KEY;ApplicationName=app".toList :=
  ⟨by decide, by
    rw [(auth_option_string_serialized [] new [] [] "app,10.0.0.1,jo".toList (by decide)).2.2.2.2.2]
    decide⟩

/-! ## Session options: start attempts -/

/-- C2: for every non-empty host list, the number of start attempts that `run`
passes to the session options is 1 when the list has more than one endpoint
and 1000 when it has exactly one. -/
theorem numStartAttempts_policy (c : ConnectionAndAuthExample) (hne : c.d_hosts ≠ []) :
    (1 < c.d_hosts.length → (sessionOptions c).numStartAttempts = 1) ∧
    (c.d_hosts.length = 1 → (sessionOptions c).numStartAttempts = 1000) ∧
    ((1 < c.d_hosts.length ∧ (sessionOptions c).numStartAttempts = 1) ∨
      (c.d_hosts.length = 1 ∧ (sessionOptions c).numStartAttempts = 1000)) := by
  have hpos : 0 < c.d_hosts.length := List.length_pos.mpr hne
  refine ⟨fun h => by simp [sessionOptions, h], fun h => by simp [sessionOptions, h], ?_⟩
  by_cases h : 1 < c.d_hosts.length
  · exact Or.inl ⟨h, by simp [sessionOptions, h]⟩
  · exact Or.inr ⟨by omega, by simp [sessionOptions, h]⟩

/-- A concrete run on the object parsed from
`-host a -host b`. -/
theorem numStartAttempts_policy_witness :
    (parseCommandLine ["prog".toList, "-host".toList, "a".toList, "-host".toList, "b".toList]
        new).2.d_hosts ≠ [] ∧
    (sessionOptions (parseCommandLine
        ["prog".toList, "-host".toList, "a".toList, "-host".toList, "b".toList]
        new).2).numStartAttempts = 1 :=
  ⟨by decide,
   (numStartAttempts_policy (parseCommandLine
      ["prog".toList, "-host".toList, "a".toList, "-host".toList, "b".toList] new).2
      (by decide)).1 (by decide)⟩

/-! ## Command line: host specifications -/

/-- C7 as stated fails for the empty specification: it has no `:`, yet
`-host ""` makes `parseCommandLine` return false and adds no endpoint. -/
theorem host_without_colon_counterexample :
    ':' ∉ "".toList ∧
    parseCommandLine ["prog".toList, "-host".toList, "".toList] new = (false, new) := by
  decide

/-- C7, amended: for every non-empty host specification `h` without `:`, the
option `-host h` is accepted and appends the endpoint `{h, 8194}` to the host
list, whatever the object held before and whatever arguments follow; alone on
the command line it yields the host list `[{h, 8194}]`. -/
theorem host_without_colon (h : List Char) (rest : List (List Char))
    (s : ConnectionAndAuthExample) (hne : h ≠ []) (hc : ':' ∉ h) :
    parseLoop ("-host".toList :: h :: rest) s
      = parseLoop rest { s with d_hosts := s.d_hosts ++ [⟨h, 8194⟩] } ∧
    ∀ prog : List Char, parseCommandLine [prog, "-host".toList, h] new
      = (true, { new with d_hosts := [⟨h, 8194⟩] }) := by
  have hsplit : splitBy h ':' = [h] := by
    rw [splitBy_eq_splitFields, splitFields_of_not_mem ':' h [] hc]
    simp [hne]
  have step : ∀ (rest : List (List Char)) (s : ConnectionAndAuthExample),
      parseLoop ("-host".toList :: h :: rest) s
        = parseLoop rest { s with d_hosts := s.d_hosts ++ [⟨h, 8194⟩] } := by
    intro rest s
    rw [parseLoop]
    simp [hsplit]
  refine ⟨step rest s, fun prog => ?_⟩
  have e : parseLoop ([prog, "-host".toList, h].drop 1) new
      = (true, { new with d_hosts := [⟨h, 8194⟩] }) := by
    show parseLoop ("-host".toList :: h :: []) new = _
    rw [step, parseLoop]
    simp [new]
  rw [parseCommandLine_of_loop_true _ _ (by rw [e]), e]
  simp

/-- A concrete run on `-host example.org`. -/
theorem host_without_colon_witness :
    parseLoop ["-host".toList, "example.org".toList] new
      = parseLoop [] { new with d_hosts := new.d_hosts ++ [⟨"example.org".toList, 8194⟩] } :=
  (host_without_colon "example.org".toList [] new (by decide) (by decide)).1

/-- C8 as stated fails for a numeral that does not fit the `int` port: the
value of `4294967297` cannot be stored in the port, and with
`-host h:4294967297` the option is accepted with port 1. -/
theorem host_with_port_counterexample :
    ':' ∉ "h".toList ∧
    (∀ c ∈ "4294967297".toList, c.isDigit = true) ∧
    Nat.ofDigits 10 ("4294967297".toList.reverse.map (fun c => c.toNat - 48)) = 4294967297 ∧
    parseCommandLine ["prog".toList, "-host".toList, "h".toList ++ ':' :: "4294967297".toList] new
      = (true, { new with d_hosts := [⟨"h".toList, 1⟩] }) ∧
    (parseCommandLine ["prog".toList, "-host".toList, "h".toList ++ ':' :: "4294967297".toList]
        new).2.d_hosts ≠ [⟨"h".toList, 4294967297⟩] := by
  refine ⟨by decide, by decide, by simp [Nat.ofDigits], by decide, by decide⟩

/-- C8, amended: for every host specification `h:p` with exactly one `:`, `p` a
non-empty run of decimal digits whose value is at most 2147483647 (it fits the
`int` port), the option `-host h:p` is accepted and appends the endpoint
`{h, value of p}` to the host list, whatever the object held before and
whatever arguments follow. -/
theorem host_with_port (h p : List Char) (rest : List (List Char))
    (s : ConnectionAndAuthExample) (hc : ':' ∉ h) (hne : p ≠ [])
    (hd : ∀ c ∈ p, c.isDigit = true)
    (hv : Nat.ofDigits 10 (p.reverse.map (fun c => c.toNat - 48)) ≤ 2147483647) :
    parseLoop ("-host".toList :: (h ++ ':' :: p) :: rest) s
      = parseLoop rest { s with
          d_hosts := s.d_hosts ++
            [⟨h, (Nat.ofDigits 10 (p.reverse.map (fun c => c.toNat - 48)) : Nat)⟩] } := by
  have hp : ':' ∉ p := fun hm => (isDigit_not_special ':' (hd ':' hm)).2.2.2 rfl
  have hsplit : splitBy (h ++ ':' :: p) ':' = [h, p] := by
    rw [splitBy_eq_splitFields, splitFields_append_delim ':' h p [] hc,
      splitFields_of_not_mem ':' p [] hp]
    simp [hne]
  rw [← digitsValue_eq_ofDigits] at hv ⊢
  have hatoi := atoi_of_digits p hne hd hv
  rw [parseLoop]
  simp [hsplit, hatoi]

/-- A concrete run on `-host example.org:8195`. -/
theorem host_with_port_witness :
    parseLoop ["-host".toList, "example.org".toList ++ ':' :: "8195".toList] new
      = parseLoop [] { new with d_hosts := new.d_hosts ++ [⟨"example.org".toList, (8195 : Nat)⟩] } := by
  have h := host_with_port "example.org".toList "8195".toList [] new (by decide) (by decide)
    (by decide) (by simp [Nat.ofDigits])
  have e : Nat.ofDigits 10 ("8195".toList.reverse.map (fun c => c.toNat - 48)) = 8195 := by
    simp [Nat.ofDigits]
  rw [e] at h
  exact h

/-- C9 as stated fails for a specification whose second `:` is its last
character: `h:80:` has two `:`, yet `-host h:80:` is accepted and adds the
endpoint `{h, 80}`. -/
theorem host_many_colons_counterexample :
    "h:80:".toList.count ':' = 2 ∧
    parseCommandLine ["prog".toList, "-host".toList, "h:80:".toList] new
      = (true, { new with d_hosts := [⟨"h".toList, 80⟩] }) := by
  decide

/-- C9, amended: for every host specification with two or more `:`, except
those with exactly two `:` of which one is the last character, the option
`-host <string>` makes the loop, and so `parseCommandLine`, return false, and
the object is left as it was: no endpoint is added. -/
theorem host_many_colons (a : List Char) (rest : List (List Char))
    (s : ConnectionAndAuthExample) (h2 : 2 ≤ a.count ':')
    (hx : ¬ (a.count ':' = 2 ∧ a.getLast? = some ':')) :
    parseLoop ("-host".toList :: a :: rest) s = (false, s) ∧
    ∀ prog : List Char, parseCommandLine (prog :: "-host".toList :: a :: rest) s = (false, s) := by
  have hlen := length_splitBy_of_two_le_count a ':' h2 hx
  have step : parseLoop ("-host".toList :: a :: rest) s = (false, s) := by
    rw [parseLoop]
    have h1 : ¬ (splitBy a ':').length = 2 := by omega
    have h3 : ¬ (splitBy a ':').length = 1 := by omega
    simp [h1, h3]
  refine ⟨step, fun prog => ?_⟩
  have e : parseLoop ((prog :: "-host".toList :: a :: rest).drop 1) s = (false, s) := step
  rw [parseCommandLine_of_loop_false _ _ (by rw [e]), e]

/-- A concrete run on `-host a::b`. -/
theorem host_many_colons_witness :
    parseLoop ["-host".toList, "a::b".toList] new = (false, new) :=
  (host_many_colons "a::b".toList [] new (by decide) (by decide)).1

/-- C10: for every argument list that `parseCommandLine` accepts on a new
object, if it has no `-host` option the host list is exactly
`[{"localhost", 8194}]`, and if it has at least one `-host` option the default
endpoint is not inserted: the object is the one the loop left, with one
endpoint per `-host` option. -/
theorem default_host (argv : List (List Char))
    (hacc : (parseCommandLine argv new).1 = true) :
    (hostOptions (argv.drop 1) = 0 →
      (parseCommandLine argv new).2.d_hosts = [⟨"localhost".toList, 8194⟩]) ∧
    (0 < hostOptions (argv.drop 1) →
      (parseCommandLine argv new).2 = (parseLoop (argv.drop 1) new).2 ∧
      (parseCommandLine argv new).2.d_hosts.length = hostOptions (argv.drop 1)) := by
  have hloop : (parseLoop (argv.drop 1) new).1 = true := by
    by_contra hf
    simp only [Bool.not_eq_true] at hf
    rw [parseCommandLine_of_loop_false _ _ hf, hf] at hacc
    exact Bool.false_ne_true hacc
  have hlen := length_hosts_parseLoop (argv.drop 1) new hloop
  have hnew : new.d_hosts.length = 0 := rfl
  rw [hnew, Nat.zero_add] at hlen
  rw [parseCommandLine_of_loop_true _ _ hloop]
  constructor
  · intro h0
    rw [h0] at hlen
    have hnil : (parseLoop (argv.drop 1) new).2.d_hosts = [] := List.length_eq_zero.mp hlen
    simp only [hnil, List.length_nil, if_true, List.nil_append]
  · intro hpos
    have hne : ¬ (parseLoop (argv.drop 1) new).2.d_hosts.length = 0 := by omega
    simp only [hne, if_false]
    exact ⟨trivial, hlen⟩

/-- A concrete run on `-auth none`. -/
theorem default_host_witness :
    (parseCommandLine ["prog".toList, "-auth".toList, "none".toList] new).2.d_hosts
      = [⟨"localhost".toList, 8194⟩] :=
  (default_host ["prog".toList, "-auth".toList, "none".toList] (by decide)).1 (by decide)

/-! ## Authorization: the polling loop -/

/-- C3: when the event that the main event wait returns at iteration `k` is
classified as response, partial response or request status and carries the
messages `m :: ms`, that iteration ends the loop without a further wait:
`authorize` returns true when `m` is `AuthorizationSuccess` and false
otherwise.  The outcome is a function of `m` alone: neither the later messages
`ms`, nor the clock, nor any later event is read. -/
theorem authorize_decided_by_first_message (c : ConnectionAndAuthExample) (env : Session)
    (token : List Char) (k fuel : Nat) (m : Message) (ms : List Message)
    (htok : extractToken env.tokenEvent = some token) (hne : token ≠ [])
    (hreach : ∀ j, j < k →
      (env.events j).decides = false ∧ env.clock (j + 1) - env.clock 0 ≤ 10)
    (hty : (env.events k).eventType = EventType.RESPONSE ∨
      (env.events k).eventType = EventType.PARTIAL_RESPONSE ∨
      (env.events k).eventType = EventType.REQUEST_STATUS)
    (hm : (env.events k).messages = m :: ms) :
    (∀ startTime : Int, pollLoop env.events env.clock startTime (fuel + 1) k
      = some (if m.messageType = AUTHORIZATION_SUCCESS then Exit.authorized else Exit.rejected)) ∧
    (authorize c env (k + (fuel + 1))).exit
      = some (if m.messageType = AUTHORIZATION_SUCCESS then Exit.authorized else Exit.rejected) ∧
    (authorize c env (k + (fuel + 1))).exit.bind Exit.value
      = some (decide (m.messageType = AUTHORIZATION_SUCCESS)) := by
  have hstep := fun startTime : Int =>
    pollLoop_succ_of_message env.events env.clock startTime fuel k m ms hty hm
  have hexit : (authorize c env (k + (fuel + 1))).exit
      = some (if m.messageType = AUTHORIZATION_SUCCESS then Exit.authorized else Exit.rejected) := by
    rw [authorize_of_token c env _ token htok hne]
    show pollLoop env.events env.clock (env.clock 0) (k + (fuel + 1)) 0 = _
    rw [pollLoop_skip env.events env.clock (env.clock 0) (fuel + 1) k 0
      (fun j _ h2 => hreach j (by omega)), Nat.zero_add]
    exact hstep _
  refine ⟨hstep, hexit, ?_⟩
  rw [hexit]
  split_ifs with h <;> simp [Exit.value, h]

/-- A concrete run: the first reply carries
`AuthorizationSuccess` and `authorize` returns true after one wait. -/
theorem authorize_decided_by_first_message_witness :
    (authorize new (answeringSession [tokenSuccessMessage "abc".toList]) 1).exit.bind Exit.value
      = some true :=
  (authorize_decided_by_first_message new (answeringSession [tokenSuccessMessage "abc".toList])
    "abc".toList 0 0 { messageType := AUTHORIZATION_SUCCESS, elements := [] } []
    (by decide) (by decide) (fun j hj => absurd hj (Nat.not_lt_zero j))
    (Or.inl rfl) rfl).2.2

/-- C4: with `t0 = clock 0` the clock value sampled after the authorization
request is sent: at an iteration whose event does not decide, the loop returns
false through the deadline branch if the clock value read then minus `t0`
exceeds 10, and otherwise waits again; if the token succeeds, no event ever
decides and some clock value read in the loop exceeds `t0 + 10`, `authorize`
returns false through the deadline branch, for every number of iterations
allowed beyond that point; and `authorize` never leaves through the deadline
branch with a clock value `e` such that `e - t0` is at most 10. -/
theorem authorize_deadline (c : ConnectionAndAuthExample) (env : Session)
    (token : List Char) (htok : extractToken env.tokenEvent = some token) (hne : token ≠ []) :
    (∀ fuel k : Nat, (env.events k).decides = false →
      pollLoop env.events env.clock (env.clock 0) (fuel + 1) k
        = if env.clock (k + 1) - env.clock 0 > 10
          then some (Exit.deadline (env.clock (k + 1)))
          else pollLoop env.events env.clock (env.clock 0) fuel (k + 1)) ∧
    ((∀ j, (env.events j).decides = false) →
      (∃ n, env.clock (n + 1) - env.clock 0 > 10) →
      ∃ n, env.clock (n + 1) - env.clock 0 > 10 ∧
        Exit.value (Exit.deadline (env.clock (n + 1))) = some false ∧
        ∀ fuel, n < fuel →
          authorize c env fuel =
            { sent := [tokenRequest c, Sent.authorizationRequest token]
              exit := some (Exit.deadline (env.clock (n + 1))) }) ∧
    (∀ (fuel : Nat) (e : Int),
      (authorize c env fuel).exit = some (Exit.deadline e) → e - env.clock 0 > 10) := by
  refine ⟨fun fuel k h => pollLoop_succ_of_not_decides _ _ _ fuel k h, ?_, ?_⟩
  · intro hwait hclock
    classical
    refine ⟨Nat.find hclock, Nat.find_spec hclock, rfl, fun fuel hfuel => ?_⟩
    obtain ⟨f, rfl⟩ : ∃ f, fuel = Nat.find hclock + (f + 1) :=
      ⟨fuel - Nat.find hclock - 1, by omega⟩
    rw [authorize_of_token c env _ token htok hne,
      pollLoop_skip env.events env.clock (env.clock 0) (f + 1) (Nat.find hclock) 0, Nat.zero_add,
      pollLoop_succ_of_not_decides _ _ _ f _ (hwait _),
      if_pos (show _ > WAIT_TIME_SECONDS from Nat.find_spec hclock)]
    intro j _ hj
    refine ⟨hwait j, ?_⟩
    have := Nat.find_min hclock (by omega : j < Nat.find hclock)
    simp only [WAIT_TIME_SECONDS]
    omega
  · intro fuel e h
    rw [authorize_of_token c env _ token htok hne] at h
    exact pollLoop_deadline env.events env.clock (env.clock 0) fuel 0 e h

/-- A concrete run: on the silent session the clock reads 0, 6,
12, and `authorize` leaves through the deadline branch at 12. -/
theorem authorize_deadline_witness :
    (authorize new silentSession 2).exit = some (Exit.deadline 12) ∧
    (12 : Int) - silentSession.clock 0 > 10 :=
  ⟨by decide,
   (authorize_deadline new silentSession "abc".toList (by decide) (by decide)).2.2 2 12
     (by decide)⟩

/-! ## Authorization: the token -/

/-- C5 as stated fails when a `TokenGenerationSuccess` message with a token
precedes the `TokenGenerationFailure` message: the scan meets the failure
message, yet the token `abc` is kept and the authorization request is sent. -/
theorem token_failure_counterexample :
    authorize new
        (answeringSession [tokenSuccessMessage "abc".toList, tokenFailureMessage]) 1
      = { sent := [Sent.generateToken, Sent.authorizationRequest "abc".toList]
          exit := some Exit.authorized } := by
  decide

/-- C5, amended: for every token-queue event classified as token status or
request status, when the scan of its messages meets a `TokenGenerationFailure`
message and every `TokenGenerationSuccess` message before it carries the empty
string as its `token` value, the scan ends with no token: `authorize` returns
false through the "Failed to get token" exit and sends no authorization
request. -/
theorem token_failure_no_request (c : ConnectionAndAuthExample) (env : Session) (fuel : Nat)
    (pre post : List Message) (f : Message)
    (hty : env.tokenEvent.eventType = EventType.TOKEN_STATUS ∨
      env.tokenEvent.eventType = EventType.REQUEST_STATUS)
    (hmsgs : env.tokenEvent.messages = pre ++ f :: post)
    (hf : f.messageType = TOKEN_FAILURE)
    (hpre : ∀ m ∈ pre, m.messageType = TOKEN_SUCCESS → m.getElementAsString TOKEN = some []) :
    extractToken env.tokenEvent = some [] ∧
    authorize c env fuel = { sent := [tokenRequest c], exit := some Exit.tokenFailed } ∧
    (authorize c env fuel).exit.bind Exit.value = some false ∧
    ∀ t : List Char, Sent.authorizationRequest t ∉ (authorize c env fuel).sent := by
  have htok : extractToken env.tokenEvent = some [] := by
    simp only [extractToken, hty, if_true, hmsgs]
    exact scanToken_failure f post hf pre hpre
  have hrun := authorize_of_no_token c env fuel htok
  refine ⟨htok, hrun, by rw [hrun]; rfl, fun t => ?_⟩
  rw [hrun]
  simp only [List.mem_singleton, tokenRequest]
  split_ifs <;> simp

/-- A concrete run: the token event carries only a
`TokenGenerationFailure` message. -/
theorem token_failure_no_request_witness :
    authorize new (answeringSession [tokenFailureMessage]) 1
      = { sent := [tokenRequest new], exit := some Exit.tokenFailed } :=
  (token_failure_no_request new (answeringSession [tokenFailureMessage]) 1 [] []
    tokenFailureMessage (Or.inl rfl) rfl rfl (by simp)).2.1

/-- C6 as stated fails when the event carries two `TokenGenerationSuccess`
messages: the request carries the token `b` of the second one, not the token
`a` of the first. -/
theorem token_first_success_counterexample :
    (authorize new
        (answeringSession [tokenSuccessMessage "a".toList, tokenSuccessMessage "b".toList])
        1).sent
      = [Sent.generateToken, Sent.authorizationRequest "b".toList] := by
  decide

/-- C6, amended: for every token-queue event classified as token status or
request status, whose `TokenGenerationSuccess` messages before the first
`TokenGenerationFailure` message all carry a `token` element, the token
obtained is the `token` value of the last of these messages, and when it is
not empty `authorize` sends, after the token request, one authorization request
that carries exactly that value. -/
theorem token_last_success (c : ConnectionAndAuthExample) (env : Session) (fuel : Nat)
    (m : Message) (v : List Char)
    (hty : env.tokenEvent.eventType = EventType.TOKEN_STATUS ∨
      env.tokenEvent.eventType = EventType.REQUEST_STATUS)
    (hall : ∀ x ∈ scannedMessages env.tokenEvent.messages,
      x.messageType = TOKEN_SUCCESS → (x.getElementAsString TOKEN).isSome = true)
    (hlast : lastTokenSuccess env.tokenEvent.messages = some m)
    (hv : m.getElementAsString TOKEN = some v) :
    extractToken env.tokenEvent = some v ∧
    (v ≠ [] → (authorize c env fuel).sent = [tokenRequest c, Sent.authorizationRequest v]) := by
  have htok : extractToken env.tokenEvent = some v := by
    simp only [extractToken, hty, if_true]
    rw [scanToken_eq_lastTokenSuccess _ _ hall, hlast]
    simp [hv]
  refine ⟨htok, fun hne => ?_⟩
  rw [authorize_of_token c env fuel v htok hne]

/-- A concrete run: one `TokenGenerationSuccess` message with
the token `abc123`. -/
theorem token_last_success_witness :
    (authorize new (answeringSession [tokenSuccessMessage "abc123".toList]) 1).sent
      = [tokenRequest new, Sent.authorizationRequest "abc123".toList] :=
  (token_last_success new (answeringSession [tokenSuccessMessage "abc123".toList]) 1
    (tokenSuccessMessage "abc123".toList) "abc123".toList (Or.inl rfl) (by decide) (by decide)
    (by decide)).2 (by decide)

/-! ## Command line: the manual option -/

/-- C11 as stated fails when USER is empty: `a`, `1.2.3.4` and the empty string
have no `,`, yet `-auth manual=a,1.2.3.4,` makes `parseCommandLine` return
false. -/
theorem manual_fields_counterexample :
    ',' ∉ "a".toList ∧ ',' ∉ "1.2.3.4".toList ∧ ',' ∉ "".toList ∧
    parseCommandLine ["prog".toList, "-auth".toList,
        "manual=".toList ++ ("a".toList ++ ',' :: ("1.2.3.4".toList ++ ',' :: "".toList))] new
      = (false, new) := by
  decide

/-- C11, amended: for all strings A, IP and USER without `,`, USER not empty,
the option `-auth manual=A,IP,USER` is accepted, whatever the object held
before and whatever arguments follow: the manual-token flag is set,
`d_ipAddress` is IP, `d_userId` is USER, and the authentication options are
the manual prefix, which ends with `ApplicationName=`, followed by A. -/
theorem manual_fields (A IP USER : List Char) (rest : List (List Char))
    (s : ConnectionAndAuthExample) (hA : ',' ∉ A) (hIP : ',' ∉ IP) (hU : ',' ∉ USER)
    (hne : USER ≠ []) :
    parseLoop ("-auth".toList :: ("manual=".toList ++ (A ++ ',' :: (IP ++ ',' :: USER))) :: rest) s
      = parseLoop rest { s with
          d_manualToken := true
          d_authOptions :=
            "AuthenticationMode=USER_AND_APPLICATION;AuthenticationType=MANUAL;ApplicationAuthenticationType=APPNAME_AND_KEY;ApplicationName=".toList
              ++ A
          d_ipAddress := IP
          d_userId := USER } := by
  have hs := splitBy_three_fields A IP USER hA hIP hU hne
  rw [parseLoop_manual, hs]
  simp [AUTH_USER_APP_MANUAL_PREFIX]

/-- A concrete run on `-auth manual=app,10.0.0.1,jo`. -/
theorem manual_fields_witness :
    (parseLoop ["-auth".toList,
        "manual=".toList ++ ("app".toList ++ ',' :: ("10.0.0.1".toList ++ ',' :: "jo".toList))]
      new).2.d_userId = "jo".toList := by
  rw [manual_fields "app".toList "10.0.0.1".toList "jo".toList [] new (by decide) (by decide)
    (by decide) (by decide)]
  rfl

/-- C12 as stated fails for a text with three `,` of which the last is the
final character: `a,b,c,` does not have exactly two `,`, yet
`-auth manual=a,b,c,` is accepted. -/
theorem manual_field_count_counterexample :
    "a,b,c,".toList.count ',' = 3 ∧
    (parseCommandLine ["prog".toList, "-auth".toList, "manual=".toList ++ "a,b,c,".toList]
      new).1 = true ∧
    (parseCommandLine ["prog".toList, "-auth".toList, "manual=".toList ++ "a,b,c,".toList]
      new).2.d_userId = "c".toList := by
  decide

/-- C12, amended: for every string `t` whose number of `,` is not two, except
a string with exactly three `,` whose last character is `,`, the option
`-auth manual=t` makes the loop, and so `parseCommandLine`, return false. -/
theorem manual_field_count (t : List Char) (rest : List (List Char))
    (s : ConnectionAndAuthExample) (h2 : t.count ',' ≠ 2)
    (hx : ¬ (t.count ',' = 3 ∧ t.getLast? = some ',')) :
    parseLoop ("-auth".toList :: ("manual=".toList ++ t) :: rest) s
      = (false, { s with d_manualToken := false }) ∧
    ∀ prog : List Char,
      (parseCommandLine (prog :: "-auth".toList :: ("manual=".toList ++ t) :: rest) s).1
        = false := by
  have hlen := length_splitBy_ne_three t ',' h2 hx
  have step : parseLoop ("-auth".toList :: ("manual=".toList ++ t) :: rest) s
      = (false, { s with d_manualToken := false }) := by
    rw [parseLoop_manual, if_neg hlen]
  refine ⟨step, fun prog => ?_⟩
  have e : parseLoop ((prog :: "-auth".toList :: ("manual=".toList ++ t) :: rest).drop 1) s
      = (false, { s with d_manualToken := false }) := step
  rw [parseCommandLine_of_loop_false _ _ (by rw [e]), e]

/-- A concrete run on `-auth manual=app`. -/
theorem manual_field_count_witness :
    parseLoop ["-auth".toList, "manual=".toList ++ "app".toList] new
      = (false, { new with d_manualToken := false }) :=
  (manual_field_count "app".toList [] new (by decide) (by decide)).1

/-- C15 as stated fails when the IP field is empty: `-auth manual=a,,u` is
accepted and sets the manual-token flag, with an empty `d_ipAddress`. -/
theorem manual_members_counterexample :
    (parseCommandLine ["prog".toList, "-auth".toList, "manual=a,,u".toList] new).1 = true ∧
    (parseCommandLine ["prog".toList, "-auth".toList, "manual=a,,u".toList]
      new).2.d_manualToken = true ∧
    (parseCommandLine ["prog".toList, "-auth".toList, "manual=a,,u".toList]
      new).2.d_ipAddress = [] := by
  decide

/-- C15, amended: for every argument list accepted on a new object that sets
the manual-token flag, the last `-auth` option is `manual=t` for a text `t`
that `splitBy` cuts into three fields, `d_ipAddress` and `d_userId` are the
second and the third field, and both are not empty when `t` has no two `,` in
a row. -/
theorem manual_members (argv : List (List Char))
    (hacc : (parseCommandLine argv new).1 = true)
    (hflag : (parseCommandLine argv new).2.d_manualToken = true) :
    ∃ t : List Char,
      (authValues (argv.drop 1)).getLast? = some ("manual=".toList ++ t) ∧
      (splitBy t ',').length = 3 ∧
      (parseCommandLine argv new).2.d_ipAddress = (splitBy t ',').getD 1 [] ∧
      (parseCommandLine argv new).2.d_userId = (splitBy t ',').getD 2 [] ∧
      (t.Chain' (fun a b => ¬ (a = ',' ∧ b = ',')) →
        (parseCommandLine argv new).2.d_ipAddress ≠ [] ∧
        (parseCommandLine argv new).2.d_userId ≠ []) := by
  obtain ⟨hloop, _, e2, e3, e4⟩ := parseCommandLine_members argv new hacc
  have hA := auth_members_parseLoop (argv.drop 1) new hloop
  rw [e2] at hflag
  cases hl : (authValues (argv.drop 1)).getLast? with
  | none =>
    have hnil := List.getLast?_eq_none_iff.mp hl
    rw [(hA.1 hnil).2.1] at hflag
    exact absurd hflag (by decide)
  | some a =>
    obtain ⟨hP, _, f2, f3⟩ := hA.2 a hl
    rw [f2] at hflag
    obtain ⟨g1, g2⟩ := auth_alone_manual a hP
    have hpre := g1.mp hflag
    obtain ⟨hlen, _, gip, guser⟩ := g2 hpre
    obtain ⟨h3, h4⟩ := f3 hflag
    obtain ⟨t, rfl⟩ := List.isPrefixOf_iff_prefix.mp hpre
    have hdrop : List.drop AUTH_OPTION_MANUAL.length (AUTH_OPTION_MANUAL ++ t) = t := by
      simp
    rw [hdrop] at hlen gip guser
    have hip : (parseCommandLine argv new).2.d_ipAddress = (splitBy t ',').getD 1 [] := by
      rw [e3, h3, gip]
    have huser : (parseCommandLine argv new).2.d_userId = (splitBy t ',').getD 2 [] := by
      rw [e4, h4, guser]
    refine ⟨t, rfl, hlen, hip, huser, fun hch => ?_⟩
    have htail := tail_splitFields_ne_nil_of_chain ',' t [] hch
    rw [← splitBy_eq_splitFields] at htail
    rw [hip, huser]
    match hsp : splitBy t ',', hlen with
    | [x, y, z], _ =>
      rw [hsp] at htail
      exact ⟨htail y (by simp), htail z (by simp)⟩

/-- A concrete run on `-auth manual=app,10.0.0.1,jo`. -/
theorem manual_members_witness :
    ∃ t : List Char,
      (authValues (["prog".toList, "-auth".toList, "manual=app,10.0.0.1,jo".toList].drop 1)).getLast?
        = some ("manual=".toList ++ t) ∧
      (splitBy t ',').length = 3 ∧
      (parseCommandLine ["prog".toList, "-auth".toList, "manual=app,10.0.0.1,jo".toList]
        new).2.d_ipAddress = (splitBy t ',').getD 1 [] ∧
      (parseCommandLine ["prog".toList, "-auth".toList, "manual=app,10.0.0.1,jo".toList]
        new).2.d_userId = (splitBy t ',').getD 2 [] ∧
      (t.Chain' (fun a b => ¬ (a = ',' ∧ b = ',')) →
        (parseCommandLine ["prog".toList, "-auth".toList, "manual=app,10.0.0.1,jo".toList]
          new).2.d_ipAddress ≠ [] ∧
        (parseCommandLine ["prog".toList, "-auth".toList, "manual=app,10.0.0.1,jo".toList]
          new).2.d_userId ≠ []) :=
  manual_members ["prog".toList, "-auth".toList, "manual=app,10.0.0.1,jo".toList]
    (by decide) (by decide)

/-! ## The method `run`: TLS options and authorization -/

/-- C13 as stated fails: with `-tls-client-credentials c.p12` alone exactly one
of the two settings is not empty, yet `run` constructs the session, without
TLS options, starts it and runs to its end. -/
theorem tls_configuration_counterexample :
    (parseCommandLine ["prog".toList, "-tls-client-credentials".toList, "c.p12".toList]
      new).2.d_clientCredentials ≠ [] ∧
    (parseCommandLine ["prog".toList, "-tls-client-credentials".toList, "c.p12".toList]
      new).2.d_trustMaterial = [] ∧
    run ["prog".toList, "-tls-client-credentials".toList, "c.p12".toList]
        (openWorld (answeringSession [tokenSuccessMessage "abc".toList])) 1
      = { session := some (sessionOptions (parseCommandLine
            ["prog".toList, "-tls-client-credentials".toList, "c.p12".toList] new).2, none)
          started := true
          authorization := some
            { sent := [Sent.generateToken, Sent.authorizationRequest "abc".toList]
              exit := some Exit.authorized }
          exit := some RunExit.finished } := by
  decide

/-- C13, amended: for every accepted argument list, `run` has no
invalid-TLS-configuration outcome.  When the client-credentials setting or the
trust-material setting is empty, in particular when exactly one of them is
not, `run` constructs the session without TLS options and calls its `start`.
The session is constructed with TLS options only when both settings are not
empty; without `-read-certificate-files` it then always is, with the options
made from the two file names and the password. -/
theorem tls_configuration (argv : List (List Char)) (w : World) (fuel : Nat)
    (hacc : (parseCommandLine argv new).1 = true) :
    (((parseCommandLine argv new).2.d_clientCredentials = [] ∨
        (parseCommandLine argv new).2.d_trustMaterial = []) →
      (run argv w fuel).session = some (sessionOptions (parseCommandLine argv new).2, none) ∧
      (run argv w fuel).started = w.start) ∧
    (∀ (o : SessionOptions) (t : TlsOptions), (run argv w fuel).session = some (o, some t) →
      (parseCommandLine argv new).2.d_clientCredentials ≠ [] ∧
      (parseCommandLine argv new).2.d_trustMaterial ≠ []) ∧
    ((parseCommandLine argv new).2.d_clientCredentials ≠ [] →
      (parseCommandLine argv new).2.d_trustMaterial ≠ [] →
      (parseCommandLine argv new).2.d_readTlsData = false →
      (run argv w fuel).session = some (sessionOptions (parseCommandLine argv new).2,
        some (TlsOptions.createFromFiles (parseCommandLine argv new).2.d_clientCredentials
          (parseCommandLine argv new).2.d_clientCredentialsPassword
          (parseCommandLine argv new).2.d_trustMaterial)) ∧
      (run argv w fuel).started = w.start) := by
  refine ⟨fun h => ?_, fun o t hs => ?_, fun h1 h2 h3 => ?_⟩
  · have r := run_of_tls argv w fuel none hacc (tlsSetup_of_empty _ w.readFile h)
    exact ⟨r.1, r.2.1⟩
  · cases htls : tlsSetup (parseCommandLine argv new).2 w.readFile with
    | error f =>
      unfold run at hs
      simp [hacc, htls] at hs
    | ok tls =>
      have r := run_of_tls argv w fuel tls hacc htls
      rw [r.1] at hs
      simp only [Option.some.injEq, Prod.mk.injEq] at hs
      rw [hs.2] at htls
      exact tlsSetup_some _ w.readFile t htls
  · have r := run_of_tls argv w fuel _ hacc (tlsSetup_of_files _ w.readFile h1 h2 h3)
    exact ⟨r.1, r.2.1⟩

/-- A concrete run on `-tls-trust-material t.p7`: the session is constructed
without TLS options. -/
theorem tls_configuration_witness :
    (run ["prog".toList, "-tls-trust-material".toList, "t.p7".toList]
      (openWorld silentSession) 0).session
      = some (sessionOptions (parseCommandLine
          ["prog".toList, "-tls-trust-material".toList, "t.p7".toList] new).2, none) :=
  ((tls_configuration ["prog".toList, "-tls-trust-material".toList, "t.p7".toList]
    (openWorld silentSession) 0 (by decide)).1 (Or.inl (by decide))).1

/-- C14: for every argument list accepted on a new object, `authorize` sends
exactly one token-generation request, as its first request.  It carries a
userId and an ipAddress exactly when the last `-auth` option starts with
`manual=`, and they are then the third and the second field of the text after
`manual=`; with any other last `-auth` option, and without `-auth` option, it
is the request that carries a correlation id only. -/
theorem token_request (argv : List (List Char)) (env : Session) (fuel : Nat)
    (hacc : (parseCommandLine argv new).1 = true) :
    (authorize (parseCommandLine argv new).2 env fuel).sent.filter Sent.isTokenRequest
      = [tokenRequest (parseCommandLine argv new).2] ∧
    (authorize (parseCommandLine argv new).2 env fuel).sent.head?
      = some (tokenRequest (parseCommandLine argv new).2) ∧
    (authValues (argv.drop 1) = [] →
      tokenRequest (parseCommandLine argv new).2 = Sent.generateToken) ∧
    (∀ a, (authValues (argv.drop 1)).getLast? = some a →
      tokenRequest (parseCommandLine argv new).2 =
        if "manual=".toList.isPrefixOf a = true then
          Sent.generateTokenManual ((splitBy (a.drop 7) ',').getD 2 [])
            ((splitBy (a.drop 7) ',').getD 1 [])
        else Sent.generateToken) := by
  obtain ⟨hloop, _, e2, e3, e4⟩ := parseCommandLine_members argv new hacc
  have hA := auth_members_parseLoop (argv.drop 1) new hloop
  have hs := authorize_sent (parseCommandLine argv new).2 env fuel
  refine ⟨hs.1, hs.2, fun hnil => ?_, fun a hl => ?_⟩
  · have hm : (parseCommandLine argv new).2.d_manualToken = false := by
      rw [e2, (hA.1 hnil).2.1]; rfl
    simp [tokenRequest, hm]
  · obtain ⟨hP, _, f2, f3⟩ := hA.2 a hl
    obtain ⟨g1, g2⟩ := auth_alone_manual a hP
    by_cases hpre : AUTH_OPTION_MANUAL.isPrefixOf a = true
    · have hflag := g1.mpr hpre
      obtain ⟨_, _, gip, guser⟩ := g2 hpre
      obtain ⟨h3, h4⟩ := f3 hflag
      have hm : (parseCommandLine argv new).2.d_manualToken = true := by
        rw [e2, f2, hflag]
      have hpre' : "manual=".toList.isPrefixOf a = true := hpre
      rw [if_pos hpre']
      simp only [tokenRequest, hm, Bool.not_true, Bool.false_eq_true, if_false, e3, e4, h3, h4,
        gip, guser]
      rfl
    · have hflag : (parseLoop ["-auth".toList, a] new).2.d_manualToken = false := by
        cases hb : (parseLoop ["-auth".toList, a] new).2.d_manualToken with
        | false => rfl
        | true => exact absurd (g1.mp hb) hpre
      have hm : (parseCommandLine argv new).2.d_manualToken = false := by
        rw [e2, f2, hflag]
      have hpre' : ¬ "manual=".toList.isPrefixOf a = true := hpre
      rw [if_neg hpre']
      simp [tokenRequest, hm]

/-- A concrete run on `-auth manual=app,10.0.0.1,jo`: the token request carries
`jo` and `10.0.0.1`. -/
theorem token_request_witness :
    tokenRequest (parseCommandLine
        ["prog".toList, "-auth".toList, "manual=app,10.0.0.1,jo".toList] new).2
      = Sent.generateTokenManual "jo".toList "10.0.0.1".toList := by
  rw [(token_request ["prog".toList, "-auth".toList, "manual=app,10.0.0.1,jo".toList]
    silentSession 0 (by decide)).2.2.2 "manual=app,10.0.0.1,jo".toList (by decide)]
  decide

/-! ## Command line: the resulting object -/

/-- C16 as stated fails: `-host :0` is accepted and gives an endpoint with an
empty host and port 0. -/
theorem host_list_counterexample :
    parseCommandLine ["prog".toList, "-host".toList, ":0".toList] new
      = (true, { new with d_hosts := [⟨[], 0⟩] }) := by
  decide

/-- C16, amended: for every argument list accepted on a new object in which
every `-host` option is `h` or `h:p` with `h` not empty and without `:`, and
`p` a decimal numeral whose value lies between 1 and 65535, every endpoint of
the resulting host list has a host that is not empty and a port between 1 and
65535. -/
theorem host_list_well_formed (argv : List (List Char))
    (hacc : (parseCommandLine argv new).1 = true)
    (hwf : ∀ a ∈ hostValues (argv.drop 1), wellFormedHostSpec a) :
    ∀ hp ∈ (parseCommandLine argv new).2.d_hosts,
      hp.d_host ≠ [] ∧ 1 ≤ hp.d_port ∧ hp.d_port ≤ 65535 := by
  have hloop := (parseCommandLine_members argv new hacc).1
  have hall := hosts_parseLoop (argv.drop 1) new hloop hwf (by simp [new])
  rw [parseCommandLine_of_loop_true _ _ hloop]
  intro hp hmem
  split_ifs at hmem with h0
  · simp only [List.mem_append, List.mem_singleton] at hmem
    rcases hmem with hmem | rfl
    · exact hall hp hmem
    · exact ⟨by decide, by norm_num, by norm_num⟩
  · exact hall hp hmem

/-- A concrete run on `-host example.org:8195`: the endpoint `example.org:8195`
of the resulting list. -/
theorem host_list_well_formed_witness :
    (⟨"example.org".toList, 8195⟩ : HostAndPort).d_host ≠ [] ∧
    (1 : Int) ≤ (⟨"example.org".toList, 8195⟩ : HostAndPort).d_port ∧
    (⟨"example.org".toList, 8195⟩ : HostAndPort).d_port ≤ 65535 :=
  host_list_well_formed
    ["prog".toList, "-host".toList, "example.org".toList ++ ':' :: "8195".toList]
    (by decide)
    (by
      intro a ha
      have e : a = "example.org".toList ++ ':' :: "8195".toList := by
        simpa [hostValues] using ha
      subst e
      exact Or.inr ⟨"example.org".toList, "8195".toList, rfl, by decide, by decide, by decide,
        by decide, by simp [Nat.ofDigits], by simp [Nat.ofDigits]⟩)
    ⟨"example.org".toList, 8195⟩ (by decide)

/-- C17: for every argument list accepted on a new object whose last `-auth`
option is `none`, the authentication options are empty and `run` never invokes
`authorize`, so that no token-generation request and no authorization request
is sent; when the TLS set-up does not fail and the session starts, `run` goes
on to its end.  Conversely, whenever `run` invokes `authorize` the
authentication options are not empty. -/
theorem auth_none_no_authorization (argv : List (List Char)) (w : World) (fuel : Nat)
    (hacc : (parseCommandLine argv new).1 = true)
    (hlast : (authValues (argv.drop 1)).getLast? = some "none".toList) :
    (parseCommandLine argv new).2.d_authOptions = [] ∧
    (run argv w fuel).authorization = none ∧
    (∀ tls, tlsSetup (parseCommandLine argv new).2 w.readFile = Except.ok tls →
      w.start = true →
      run argv w fuel =
        { session := some (sessionOptions (parseCommandLine argv new).2, tls)
          started := true, authorization := none, exit := some RunExit.finished }) ∧
    (∀ (argv' : List (List Char)) (w' : World) (fuel' : Nat),
      (run argv' w' fuel').authorization ≠ none →
      (parseCommandLine argv' new).2.d_authOptions ≠ []) := by
  obtain ⟨hloop, e1, _, _, _⟩ := parseCommandLine_members argv new hacc
  have hA := (auth_members_parseLoop (argv.drop 1) new hloop).2 _ hlast
  have hempty : (parseCommandLine argv new).2.d_authOptions = [] := by
    rw [e1, hA.2.1]
    exact auth_alone_none.2
  have hnone : (run argv w fuel).authorization = none := by
    by_contra hn
    exact (run_authorization argv w fuel hn).2.1 hempty
  refine ⟨hempty, hnone, fun tls htls hstart => ?_,
    fun argv' w' fuel' hn => (run_authorization argv' w' fuel' hn).2.1⟩
  unfold run
  simp [hacc, htls, hstart, hempty]

/-- A concrete run on `-auth none`. -/
theorem auth_none_no_authorization_witness :
    (run ["prog".toList, "-auth".toList, "none".toList]
      (openWorld (answeringSession [tokenSuccessMessage "abc".toList])) 1).authorization
      = none :=
  (auth_none_no_authorization ["prog".toList, "-auth".toList, "none".toList]
    (openWorld (answeringSession [tokenSuccessMessage "abc".toList])) 1
    (by decide) (by decide)).2.1

/-- C18: for every argument list accepted on a new object that has no `-auth`
option, the authentication options are `AuthenticationType=OS_LOGON`, those of
the default `user`, and the manual-token flag is false. -/
theorem default_auth_user (argv : List (List Char))
    (hacc : (parseCommandLine argv new).1 = true)
    (hno : authValues (argv.drop 1) = []) :
    (parseCommandLine argv new).2.d_authOptions = "AuthenticationType=OS_LOGON".toList ∧
    (parseCommandLine argv new).2.d_manualToken = false ∧
    (parseCommandLine argv new).2.d_authOptions
      = (parseCommandLine ["prog".toList, "-auth".toList, "user".toList] new).2.d_authOptions := by
  obtain ⟨hloop, e1, e2, _, _⟩ := parseCommandLine_members argv new hacc
  obtain ⟨f1, f2, _, _⟩ := (auth_members_parseLoop (argv.drop 1) new hloop).1 hno
  have h1 : (parseCommandLine argv new).2.d_authOptions
      = "AuthenticationType=OS_LOGON".toList := by
    rw [e1, f1]; rfl
  refine ⟨h1, by rw [e2, f2]; rfl, ?_⟩
  rw [h1]
  decide

/-- A concrete run on `-host example.org`. -/
theorem default_auth_user_witness :
    (parseCommandLine ["prog".toList, "-host".toList, "example.org".toList] new).2.d_authOptions
      = "AuthenticationType=OS_LOGON".toList :=
  (default_auth_user ["prog".toList, "-host".toList, "example.org".toList]
    (by decide) (by decide)).1

/-- C19: for every argument list accepted on a new object that has at least
one `-auth` option, the list without its earlier `-auth` options (and their
values) is accepted too, has the last `-auth` option as its only one, and
yields the same authentication options and the same manual-token flag; they
are those that the last `-auth` option alone sets, and the flag is set if and
only if the value of that option starts with `manual=`. -/
theorem last_auth_option_wins (argv : List (List Char)) (last : List Char)
    (hacc : (parseCommandLine argv new).1 = true)
    (hlast : (authValues (argv.drop 1)).getLast? = some last) :
    (parseCommandLine (argv.take 1 ++ dropEarlierAuth (argv.drop 1)) new).1 = true ∧
    authValues ((argv.take 1 ++ dropEarlierAuth (argv.drop 1)).drop 1) = [last] ∧
    (parseCommandLine argv new).2.d_authOptions
      = (parseCommandLine (argv.take 1 ++ dropEarlierAuth (argv.drop 1)) new).2.d_authOptions ∧
    (parseCommandLine argv new).2.d_manualToken
      = (parseCommandLine (argv.take 1 ++ dropEarlierAuth (argv.drop 1)) new).2.d_manualToken ∧
    (parseCommandLine argv new).2.d_authOptions
      = (parseLoop ["-auth".toList, last] new).2.d_authOptions ∧
    (parseCommandLine argv new).2.d_manualToken
      = (parseLoop ["-auth".toList, last] new).2.d_manualToken ∧
    ((parseCommandLine argv new).2.d_manualToken = true ↔
      "manual=".toList.isPrefixOf last = true) := by
  obtain ⟨hloop, e1, e2, _, _⟩ := parseCommandLine_members argv new hacc
  obtain ⟨hP, f1, f2, _⟩ := (auth_members_parseLoop (argv.drop 1) new hloop).2 last hlast
  have hargv : argv ≠ [] := by
    rintro rfl
    simp [authValues] at hlast
  obtain ⟨prog, args, rfl⟩ := List.exists_cons_of_ne_nil hargv
  have hdrop : ((prog :: args).take 1 ++ dropEarlierAuth ((prog :: args).drop 1)).drop 1
      = dropEarlierAuth args := by simp
  have hloop' : (parseLoop (dropEarlierAuth args) new).1 = true :=
    parseLoop_dropEarlierAuth args new hloop
  have hav : authValues (dropEarlierAuth args) = [last] := by
    have hl : (authValues args).getLast? = some last := hlast
    rw [authValues_dropEarlierAuth, hl]
    rfl
  have hacc' : (parseCommandLine
      ((prog :: args).take 1 ++ dropEarlierAuth ((prog :: args).drop 1)) new).1 = true := by
    rw [parseCommandLine_of_loop_true _ _ (by rw [hdrop]; exact hloop')]
  obtain ⟨_, e1', e2', _, _⟩ := parseCommandLine_members _ new hacc'
  rw [hdrop] at e1' e2'
  obtain ⟨_, f1', f2', _⟩ :=
    (auth_members_parseLoop (dropEarlierAuth args) new hloop').2 last (by rw [hav]; rfl)
  have hflag := (auth_alone_manual last hP).1
  refine ⟨hacc', by rw [hdrop]; exact hav, ?_, ?_, ?_, ?_, ?_⟩
  · rw [e1, e1', f1']; exact f1
  · rw [e2, e2', f2']; exact f2
  · rw [e1]; exact f1
  · rw [e2]; exact f2
  · rw [e2]
    show (parseLoop (List.drop 1 (prog :: args)) new).2.d_manualToken = true ↔ _
    rw [f2]
    exact hflag

/-- A concrete run on `-auth manual=app,10.0.0.1,jo -auth none`: the second
option alone decides. -/
theorem last_auth_option_wins_witness :
    (parseCommandLine ["prog".toList, "-auth".toList, "manual=app,10.0.0.1,jo".toList,
        "-auth".toList, "none".toList] new).2.d_manualToken
      = (parseLoop ["-auth".toList, "none".toList] new).2.d_manualToken :=
  (last_auth_option_wins ["prog".toList, "-auth".toList, "manual=app,10.0.0.1,jo".toList,
    "-auth".toList, "none".toList] "none".toList (by decide) (by decide)).2.2.2.2.2.1

/-! ## Authorization: an empty token -/

/-- C20: for every token-queue event that is classified neither as token status
nor as request status, or in which every `TokenGenerationSuccess` message read
by the scan carries the empty string as its `token` value, `authorize` returns
false through the "Failed to get token" exit and sends no authorization
request: its only request is the token request. -/
theorem empty_token_no_request (c : ConnectionAndAuthExample) (env : Session) (fuel : Nat)
    (h : (¬ (env.tokenEvent.eventType = EventType.TOKEN_STATUS ∨
          env.tokenEvent.eventType = EventType.REQUEST_STATUS)) ∨
      (∀ m ∈ scannedMessages env.tokenEvent.messages,
        m.messageType = TOKEN_SUCCESS → m.getElementAsString TOKEN = some [])) :
    authorize c env fuel = { sent := [tokenRequest c], exit := some Exit.tokenFailed } ∧
    (authorize c env fuel).exit.bind Exit.value = some false ∧
    ∀ t : List Char, Sent.authorizationRequest t ∉ (authorize c env fuel).sent := by
  have htok : extractToken env.tokenEvent = some [] := by
    by_cases hty : env.tokenEvent.eventType = EventType.TOKEN_STATUS ∨
        env.tokenEvent.eventType = EventType.REQUEST_STATUS
    · rcases h with h | h
      · exact absurd hty h
      · simp only [extractToken, hty, if_true]
        rw [scanToken_eq_lastTokenSuccess _ _ (fun x hx hs => by rw [h x hx hs]; rfl)]
        cases hl : lastTokenSuccess env.tokenEvent.messages with
        | none => rfl
        | some m =>
          have hmem : m ∈ (scannedMessages env.tokenEvent.messages).filter
              (fun m => m.messageType = TOKEN_SUCCESS) :=
            List.mem_of_getLast?_eq_some hl
          have hm := List.mem_filter.mp hmem
          have := h m hm.1 (by simpa using hm.2)
          simp [this]
    · simp only [extractToken, hty, if_false]
  have hrun := authorize_of_no_token c env fuel htok
  refine ⟨hrun, by rw [hrun]; rfl, fun t => ?_⟩
  rw [hrun]
  simp only [List.mem_singleton, tokenRequest]
  split_ifs <;> simp

/-- A concrete run: the token event carries a `TokenGenerationSuccess` message
with an empty token. -/
theorem empty_token_no_request_witness :
    authorize new (answeringSession [tokenSuccessMessage []]) 1
      = { sent := [tokenRequest new], exit := some Exit.tokenFailed } :=
  (empty_token_no_request new (answeringSession [tokenSuccessMessage []]) 1
    (Or.inr (by decide))).1

end ConnectionAndAuthExample
